import Mathlib

/-!
Verification development for the jsonpath binary codec of
`src/backend/utils/adt/jsonpath.c` (PostgresPro "projective_index" repository).

The C file implements:
 * `flattenJsonPathParseItem` — recursive encoder from a parse tree
   (`JsonPathParseItem`) to a 4-byte-aligned binary buffer (`JsonPath`);
 * `jspInitByBuffer` and the `jspGet*` accessors — a lazy cursor over the
   binary buffer;
 * `printJsonPathItem` / `jsonPathToCstring` — the pretty printer;
 * `jspIsMutableWalker` / `jspIsMutable` — the datetime-mutability analysis;
 * `jsonpath_recv` — the binary-mode receive path with a 1-byte version prefix.

The shallow embedding below models bytes as `List Nat`, the parse tree as a
nested mutual inductive, and every stateful C routine as explicit state
passing.  External collaborators (the grammar-level parser, `numeric_out`,
`datetime_format_flags`, `exprType` on variable expressions) are modelled as
inputs: numerics carry their canonical output text, datetime format
classification is a `String → Bool` parameter, and variable types come
pre-resolved as a `(name, type)` list.  Strings are modelled at byte level via
`Char.toNat` (all concrete inputs below are ASCII).
-/

set_option maxRecDepth 10000

/-- `enum JsonPathItemType` from `utils/jsonpath.h` (the header is not part of
the sources here; the enumeration of constructors follows the case lists of
`jsonpath.c`).  The concrete tag bytes are a fixed injective enumeration,
see `toTag`; no claim observes the numeric tag values themselves. -/
inductive JsonPathItemType where
  | jpiNull | jpiString | jpiNumeric | jpiBool
  | jpiAnd | jpiOr | jpiNot | jpiIsUnknown
  | jpiEqual | jpiNotEqual | jpiLess | jpiGreater | jpiLessOrEqual | jpiGreaterOrEqual
  | jpiAdd | jpiSub | jpiMul | jpiDiv | jpiMod
  | jpiPlus | jpiMinus
  | jpiAnyArray | jpiAnyKey | jpiIndexArray | jpiAny
  | jpiKey | jpiCurrent | jpiRoot | jpiVariable | jpiFilter | jpiExists
  | jpiType | jpiSize | jpiAbs | jpiFloor | jpiCeiling | jpiDouble
  | jpiDatetime | jpiKeyValue
  | jpiSubscript | jpiLast | jpiStartsWith | jpiLikeRegex
  | jpiSequence | jpiArray | jpiObject
  deriving DecidableEq, Fintype

/-- Byte tag written for each item type (`appendStringInfoChar(buf, (char) (item->type))`,
jsonpath.c:273). -/
def toTag : JsonPathItemType → Nat
  | .jpiNull => 0 | .jpiString => 1 | .jpiNumeric => 2 | .jpiBool => 3
  | .jpiAnd => 4 | .jpiOr => 5 | .jpiNot => 6 | .jpiIsUnknown => 7
  | .jpiEqual => 8 | .jpiNotEqual => 9 | .jpiLess => 10 | .jpiGreater => 11
  | .jpiLessOrEqual => 12 | .jpiGreaterOrEqual => 13
  | .jpiAdd => 14 | .jpiSub => 15 | .jpiMul => 16 | .jpiDiv => 17 | .jpiMod => 18
  | .jpiPlus => 19 | .jpiMinus => 20
  | .jpiAnyArray => 21 | .jpiAnyKey => 22 | .jpiIndexArray => 23 | .jpiAny => 24
  | .jpiKey => 25 | .jpiCurrent => 26 | .jpiRoot => 27 | .jpiVariable => 28
  | .jpiFilter => 29 | .jpiExists => 30
  | .jpiType => 31 | .jpiSize => 32 | .jpiAbs => 33 | .jpiFloor => 34
  | .jpiCeiling => 35 | .jpiDouble => 36 | .jpiDatetime => 37 | .jpiKeyValue => 38
  | .jpiSubscript => 39 | .jpiLast => 40 | .jpiStartsWith => 41 | .jpiLikeRegex => 42
  | .jpiSequence => 43 | .jpiArray => 44 | .jpiObject => 45

/-- Inverse of `toTag`, used by the decoder (`jspInitByBuffer` dispatches on the
stored type byte). -/
def ofTag (n : Nat) : Option JsonPathItemType :=
  match n with
  | 0 => some .jpiNull | 1 => some .jpiString | 2 => some .jpiNumeric | 3 => some .jpiBool
  | 4 => some .jpiAnd | 5 => some .jpiOr | 6 => some .jpiNot | 7 => some .jpiIsUnknown
  | 8 => some .jpiEqual | 9 => some .jpiNotEqual | 10 => some .jpiLess | 11 => some .jpiGreater
  | 12 => some .jpiLessOrEqual | 13 => some .jpiGreaterOrEqual
  | 14 => some .jpiAdd | 15 => some .jpiSub | 16 => some .jpiMul | 17 => some .jpiDiv
  | 18 => some .jpiMod | 19 => some .jpiPlus | 20 => some .jpiMinus
  | 21 => some .jpiAnyArray | 22 => some .jpiAnyKey | 23 => some .jpiIndexArray
  | 24 => some .jpiAny | 25 => some .jpiKey | 26 => some .jpiCurrent | 27 => some .jpiRoot
  | 28 => some .jpiVariable | 29 => some .jpiFilter | 30 => some .jpiExists
  | 31 => some .jpiType | 32 => some .jpiSize | 33 => some .jpiAbs | 34 => some .jpiFloor
  | 35 => some .jpiCeiling | 36 => some .jpiDouble | 37 => some .jpiDatetime
  | 38 => some .jpiKeyValue | 39 => some .jpiSubscript | 40 => some .jpiLast
  | 41 => some .jpiStartsWith | 42 => some .jpiLikeRegex | 43 => some .jpiSequence
  | 44 => some .jpiArray | 45 => some .jpiObject
  | _ => none

/-- The binary operators sharing the left/right-argument layout
(case list at jsonpath.c:307-320 and `jspGetLeftArg`/`jspGetRightArg`). -/
inductive JspBinaryOp where
  | opAnd | opOr
  | opEqual | opNotEqual | opLess | opGreater | opLessOrEqual | opGreaterOrEqual
  | opAdd | opSub | opMul | opDiv | opMod
  | opStartsWith
  deriving DecidableEq, Fintype

/-- The unary (single optional argument) forms sharing the `arg` layout
(case list at jsonpath.c:364-373 and `jspGetArg`). -/
inductive JspUnaryOp where
  | opFilter | opIsUnknown | opNot | opPlus | opMinus | opExists | opDatetime | opArray
  deriving DecidableEq, Fintype

/-- Zero-payload item methods (case list at jsonpath.c:451-457). -/
inductive JspMethod where
  | mType | mSize | mAbs | mFloor | mCeiling | mDouble | mKeyValue
  deriving DecidableEq, Fintype

mutual
/-- Payload variants of `JsonPathParseItem` (`item->value` union plus the
payload-free kinds).  `pnumeric` carries the numeric literal's canonical
output text (`numeric_out` is an external collaborator; the varlena bytes are
modelled as a 4-byte size header followed by that text, see the encoder). -/
inductive PVal where
  | pnull
  | pstring (s : String)
  | pnumeric (numText : String)
  | pbool (b : Bool)
  | pbin (op : JspBinaryOp) (left right : Option PItem)
  | plikeRegex (flags : Nat) (pattern : String) (expr : PItem)
  | punary (op : JspUnaryOp) (arg : Option PItem)
  | proot
  | pcurrent
  | panyArray
  | panyKey
  | plast
  | pkey (s : String)
  | pvariable (s : String)
  | pindexArray (elems : List PSubscript)
  | pany (first last : Nat)
  | pmethod (m : JspMethod)
  | psequence (elems : List PItem)
  | pobject (fields : List PField)
/-- One array-subscript entry: a `from` expression and an optional `to`
(`item->value.array.elems[i]`). -/
inductive PSubscript where
  | mk (sfrom : PItem) (sto : Option PItem)
/-- One object-constructor field (`field->value.args.left/right`). -/
inductive PField where
  | mk (key : PItem) (fval : PItem)
/-- `JsonPathParseItem`: a payload plus the optional `next` chain link. -/
inductive PItem where
  | mk (val : PVal) (next : Option PItem)
end

def PItem.val : PItem → PVal
  | .mk v _ => v

def PItem.next : PItem → Option PItem
  | .mk _ n => n

def JspBinaryOp.itemType : JspBinaryOp → JsonPathItemType
  | .opAnd => .jpiAnd | .opOr => .jpiOr
  | .opEqual => .jpiEqual | .opNotEqual => .jpiNotEqual
  | .opLess => .jpiLess | .opGreater => .jpiGreater
  | .opLessOrEqual => .jpiLessOrEqual | .opGreaterOrEqual => .jpiGreaterOrEqual
  | .opAdd => .jpiAdd | .opSub => .jpiSub | .opMul => .jpiMul
  | .opDiv => .jpiDiv | .opMod => .jpiMod
  | .opStartsWith => .jpiStartsWith

def JspUnaryOp.itemType : JspUnaryOp → JsonPathItemType
  | .opFilter => .jpiFilter | .opIsUnknown => .jpiIsUnknown | .opNot => .jpiNot
  | .opPlus => .jpiPlus | .opMinus => .jpiMinus | .opExists => .jpiExists
  | .opDatetime => .jpiDatetime | .opArray => .jpiArray

def JspMethod.itemType : JspMethod → JsonPathItemType
  | .mType => .jpiType | .mSize => .jpiSize | .mAbs => .jpiAbs
  | .mFloor => .jpiFloor | .mCeiling => .jpiCeiling | .mDouble => .jpiDouble
  | .mKeyValue => .jpiKeyValue

/-- `item->type` of a parse item payload. -/
def PVal.itemType : PVal → JsonPathItemType
  | .pnull => .jpiNull
  | .pstring _ => .jpiString
  | .pnumeric _ => .jpiNumeric
  | .pbool _ => .jpiBool
  | .pbin op _ _ => op.itemType
  | .plikeRegex _ _ _ => .jpiLikeRegex
  | .punary op _ => op.itemType
  | .proot => .jpiRoot
  | .pcurrent => .jpiCurrent
  | .panyArray => .jpiAnyArray
  | .panyKey => .jpiAnyKey
  | .plast => .jpiLast
  | .pkey _ => .jpiKey
  | .pvariable _ => .jpiVariable
  | .pindexArray _ => .jpiIndexArray
  | .pany _ _ => .jpiAny
  | .pmethod m => m.itemType
  | .psequence _ => .jpiSequence
  | .pobject _ => .jpiObject

/-! ## Buffer writer (StringInfo with alignment and reserve-then-patch) -/

/-- `JSONPATH_HDRSZ`: 4-byte varlena length word plus the 4-byte `header`
(version/flags) field precede the node data. -/
def JSONPATH_HDRSZ : Nat := 8

/-- `INTALIGN`: round up to a multiple of 4. -/
def INTALIGN (n : Nat) : Nat := 4 * ((n + 3) / 4)

/-- Little-endian 4-byte encoding of a 32-bit value. -/
def le32 (v : Nat) : List Nat :=
  [v % 256, v / 256 % 256, v / 65536 % 256, v / 16777216 % 256]

/-- Byte list of a string (ASCII model: one byte per char). -/
def strBytes (s : String) : List Nat := s.toList.map Char.toNat

/-- Patch 4 bytes at `off` (`*(int32 *) (buf->data + off) = v`).  `List.set`
leaves the length unchanged. -/
def patchInt32 (buf : List Nat) (off : Nat) (v : Nat) : List Nat :=
  (((buf.set off (v % 256)).set (off + 1) (v / 256 % 256)).set
      (off + 2) (v / 65536 % 256)).set (off + 3) (v / 16777216 % 256)

/-- `alignStringInfoInt` (jsonpath.c:535-552): pad with zero bytes to a 4-byte
boundary. -/
def alignStringInfoInt (buf : List Nat) : List Nat :=
  buf ++ List.replicate (INTALIGN buf.length - buf.length) 0

/-- Encoder state: the output buffer plus two ghost lists recording, for the
audit of the layout claims, every node-start position and every reserved
4-byte offset-slot position (both relative to the start of the node data,
i.e. `buf->len - JSONPATH_HDRSZ` as in jsonpath.c:265). -/
structure EncState where
  buf : List Nat
  starts : List Nat
  slots : List Nat
  deriving DecidableEq

/-- `reserveSpaceForItemPointer` (jsonpath.c:558-567): append a zeroed int32,
returning its (absolute) position for later patching.  The ghost `slots` list
records the data-relative position. -/
def reserveSpaceForItemPointer (st : EncState) : EncState × Nat :=
  (⟨st.buf ++ le32 0, st.starts, st.slots ++ [st.buf.length - JSONPATH_HDRSZ]⟩,
   st.buf.length)

/-- The three input errors raised by the encoder.  In the C code the first is
reported with `ERRCODE_INVALID_TEXT_REPRESENTATION`
(`checkJsonPathExtensionsEnabled`, jsonpath.c:243-253) and the other two with
`ERRCODE_SYNTAX_ERROR` (jsonpath.c:396-407); all three are input/structural
errors in the sense of the specification. -/
inductive JsonPathEncError where
  | extensionsDisabled
  | currentInRootExpression
  | lastOutsideArraySubscript
  deriving DecidableEq

mutual
/-- `flattenJsonPathParseItem` (jsonpath.c:259-530): serialize one parse item
(and, recursively, its children and `next` chain) into the buffer, returning
the item's data-relative start position `pos = buf->len - JSONPATH_HDRSZ`:
append the type byte, align the buffer to 4 bytes, reserve the `next` slot,
write the kind-specific payload (`flattenItemPayload`), then flatten the
chained successor (if any) and patch the `next` slot with its displacement.
Error propagation (`ereport` unwinding in C) is `Except.bind`. -/
def flattenJsonPathParseItem (ext : Bool) (item : PItem) (nestingLevel : Nat)
    (insideArraySubscript : Bool) (st : EncState) :
    Except JsonPathEncError (EncState × Nat) :=
  match item, st with
  | .mk v nxt, ⟨buf, starts, slots⟩ =>
    let pos := buf.length - JSONPATH_HDRSZ
    let buf := alignStringInfoInt (buf ++ [toTag v.itemType])
    let next := buf.length
    let slots := slots ++ [next - JSONPATH_HDRSZ]
    let buf := buf ++ le32 0
    (flattenItemPayload ext v nestingLevel insideArraySubscript
        ⟨buf, starts ++ [pos], slots⟩ pos).bind fun st2 =>
      match nxt with
      | none => .ok (st2, pos)
      | some nx =>
        (flattenJsonPathParseItem ext nx nestingLevel insideArraySubscript st2).bind
          fun r =>
            match r with
            | (⟨buf3, starts3, slots3⟩, chld) =>
              .ok (⟨patchInt32 buf3 next (chld - pos), starts3, slots3⟩, pos)
termination_by structural item

/-- The `switch (item->type)` payload part of `flattenJsonPathParseItem`
(jsonpath.c:288-520), entered with the buffer 4-byte aligned just past the
reserved `next` slot (whose data-relative position is already recorded in the
ghost `slots` list, as are the node start positions in `starts`). -/
def flattenItemPayload (ext : Bool) (v : PVal) (nestingLevel : Nat)
    (insideArraySubscript : Bool) (st : EncState) (pos : Nat) :
    Except JsonPathEncError EncState :=
  match v, st with
  | .pstring s, ⟨buf, starts, slots⟩ =>
    .ok ⟨buf ++ le32 (strBytes s).length ++ strBytes s ++ [0], starts, slots⟩
  | .pvariable s, ⟨buf, starts, slots⟩ =>
    .ok ⟨buf ++ le32 (strBytes s).length ++ strBytes s ++ [0], starts, slots⟩
  | .pkey s, ⟨buf, starts, slots⟩ =>
    .ok ⟨buf ++ le32 (strBytes s).length ++ strBytes s ++ [0], starts, slots⟩
  | .pnumeric t, ⟨buf, starts, slots⟩ =>
    .ok ⟨buf ++ le32 ((strBytes t).length + 4) ++ strBytes t, starts, slots⟩
  | .pbool b, ⟨buf, starts, slots⟩ =>
    .ok ⟨buf ++ [if b then 1 else 0], starts, slots⟩
  | .pbin _ l r, ⟨buf, starts, slots⟩ =>
    let left := buf.length
    let right := buf.length + 4
    let slots := slots ++ [left - JSONPATH_HDRSZ, right - JSONPATH_HDRSZ]
    let buf := buf ++ le32 0 ++ le32 0
    (flattenOptChild ext l nestingLevel insideArraySubscript
        ⟨buf, starts, slots⟩ pos).bind fun r1 =>
      match r1 with
      | (⟨b1, s1, sl1⟩, chld) =>
        (flattenOptChild ext r nestingLevel insideArraySubscript
            ⟨patchInt32 b1 left (chld - pos), s1, sl1⟩ pos).bind fun r2 =>
          match r2 with
          | (⟨b2, s2, sl2⟩, chld2) =>
            .ok ⟨patchInt32 b2 right (chld2 - pos), s2, sl2⟩
  | .plikeRegex flags pat e, ⟨buf, starts, slots⟩ =>
    let buf := buf ++ le32 flags
    let offs := buf.length
    let slots := slots ++ [offs - JSONPATH_HDRSZ]
    let buf := buf ++ le32 0 ++ le32 (strBytes pat).length ++ strBytes pat ++ [0]
    (flattenJsonPathParseItem ext e nestingLevel insideArraySubscript
        ⟨buf, starts, slots⟩).bind fun r =>
      match r with
      | (⟨b1, s1, sl1⟩, chld) =>
        .ok ⟨patchInt32 b1 offs (chld - pos), s1, sl1⟩
  | .punary op arg, ⟨buf, starts, slots⟩ =>
    let argSlot := buf.length
    let slots := slots ++ [argSlot - JSONPATH_HDRSZ]
    let buf := buf ++ le32 0
    if op = .opArray ∧ ext = false then .error .extensionsDisabled
    else
      match arg with
      | none => .ok ⟨buf, starts, slots⟩
      | some a =>
        (flattenJsonPathParseItem ext a
            (nestingLevel + (if op = .opFilter then 1 else 0))
            insideArraySubscript ⟨buf, starts, slots⟩).bind fun r =>
          .ok ⟨patchInt32 r.1.buf argSlot (r.2 - pos), r.1.starts, r.1.slots⟩
  | .pnull, st => .ok st
  | .proot, st => .ok st
  | .panyArray, st => .ok st
  | .panyKey, st => .ok st
  | .pcurrent, st =>
    if nestingLevel = 0 then .error .currentInRootExpression else .ok st
  | .plast, st =>
    if insideArraySubscript then .ok st else .error .lastOutsideArraySubscript
  | .pindexArray elems, ⟨buf, starts, slots⟩ =>
    let nelems := elems.length
    let buf := buf ++ le32 nelems
    let offset := buf.length
    let slots := slots ++ (List.range (2 * nelems)).map
        (fun i => offset + 4 * i - JSONPATH_HDRSZ)
    let buf := buf ++ List.replicate (4 * (2 * nelems)) 32
    flattenIndexArrayElems ext elems nestingLevel pos offset ⟨buf, starts, slots⟩
  | .pany first last, ⟨buf, starts, slots⟩ =>
    .ok ⟨buf ++ le32 first ++ le32 last, starts, slots⟩
  | .pmethod _, st => .ok st
  | .psequence elems, ⟨buf, starts, slots⟩ =>
    if ext = false then .error .extensionsDisabled
    else
      let nelems := elems.length
      let buf := buf ++ le32 nelems
      let offset := buf.length
      let slots := slots ++ (List.range nelems).map
          (fun i => offset + 4 * i - JSONPATH_HDRSZ)
      let buf := buf ++ List.replicate (4 * nelems) 32
      flattenSequenceElems ext elems nestingLevel insideArraySubscript pos offset
        ⟨buf, starts, slots⟩
  | .pobject fields, ⟨buf, starts, slots⟩ =>
    if ext = false then .error .extensionsDisabled
    else
      let nfields := fields.length
      let buf := buf ++ le32 nfields
      let offset := buf.length
      let slots := slots ++ (List.range (2 * nfields)).map
          (fun i => offset + 4 * i - JSONPATH_HDRSZ)
      let buf := buf ++ List.replicate (4 * (2 * nfields)) 32
      flattenObjectFields ext fields nestingLevel insideArraySubscript pos offset
        ⟨buf, starts, slots⟩
termination_by structural v

/-- An optional child: a NULL pointer contributes the parent's own position
(so the patched displacement is 0, jsonpath.c:330-339). -/
def flattenOptChild (ext : Bool) (o : Option PItem) (nestingLevel : Nat)
    (insideArraySubscript : Bool) (st : EncState) (pos : Nat) :
    Except JsonPathEncError (EncState × Nat) :=
  match o with
  | none => .ok (st, pos)
  | some it => flattenJsonPathParseItem ext it nestingLevel insideArraySubscript st
termination_by structural o

/-- The `jpiIndexArray` loop (jsonpath.c:420-440): flatten each `from` (and
optional `to`) with `insideArraySubscript = true` and patch the pair of slots. -/
def flattenIndexArrayElems (ext : Bool) (elems : List PSubscript) (nestingLevel : Nat)
    (pos offset : Nat) (st : EncState) : Except JsonPathEncError EncState :=
  match elems with
  | [] => .ok st
  | .mk f t :: rest =>
    (flattenJsonPathParseItem ext f nestingLevel true st).bind fun rf =>
      match rf with
      | (st1, fp) =>
        (flattenIndexArrayTo ext t nestingLevel pos st1).bind fun rt =>
          match rt with
          | (⟨b2, s2, sl2⟩, topos) =>
            flattenIndexArrayElems ext rest nestingLevel pos (offset + 8)
              ⟨patchInt32 (patchInt32 b2 offset (fp - pos)) (offset + 4) topos,
               s2, sl2⟩
termination_by structural elems

/-- The optional `to` bound of one subscript: absent encodes as displacement 0
(jsonpath.c:429-434). -/
def flattenIndexArrayTo (ext : Bool) (t : Option PItem) (nestingLevel : Nat)
    (pos : Nat) (st : EncState) : Except JsonPathEncError (EncState × Nat) :=
  match t with
  | none => .ok (st, 0)
  | some ti =>
    (flattenJsonPathParseItem ext ti nestingLevel true st).bind fun rt =>
      match rt with
      | (st2, tp) => .ok (st2, tp - pos)
termination_by structural t

/-- The `jpiSequence` loop (jsonpath.c:473-481). -/
def flattenSequenceElems (ext : Bool) (elems : List PItem) (nestingLevel : Nat)
    (insideArraySubscript : Bool) (pos offset : Nat) (st : EncState) :
    Except JsonPathEncError EncState :=
  match elems with
  | [] => .ok st
  | e :: rest =>
    (flattenJsonPathParseItem ext e nestingLevel insideArraySubscript st).bind
      fun r =>
        match r with
        | (⟨b1, s1, sl1⟩, ep) =>
          flattenSequenceElems ext rest nestingLevel insideArraySubscript pos
            (offset + 4) ⟨patchInt32 b1 offset (ep - pos), s1, sl1⟩
termination_by structural elems

/-- The `jpiObject` loop (jsonpath.c:498-515). -/
def flattenObjectFields (ext : Bool) (fields : List PField) (nestingLevel : Nat)
    (insideArraySubscript : Bool) (pos offset : Nat) (st : EncState) :
    Except JsonPathEncError EncState :=
  match fields with
  | [] => .ok st
  | .mk k v :: rest =>
    (flattenJsonPathParseItem ext k nestingLevel insideArraySubscript st).bind
      fun rk =>
        match rk with
        | (st1, kp) =>
          (flattenJsonPathParseItem ext v nestingLevel insideArraySubscript st1).bind
            fun rv =>
              match rv with
              | (⟨b2, s2, sl2⟩, vp) =>
                flattenObjectFields ext rest nestingLevel insideArraySubscript pos
                  (offset + 8)
                  ⟨patchInt32 (patchInt32 b2 offset (kp - pos)) (offset + 4) (vp - pos),
                   s2, sl2⟩
termination_by structural fields
end

/-- Parser output (`JsonPathParseResult`): the tree plus the `lax` and `ext`
flags taken from the text's prefix.  The grammar-level parser itself is an
external collaborator. -/
structure JsonPathParseResult where
  expr : PItem
  lax : Bool
  ext : Bool

/-- An encoded jsonpath value: the header flags plus the node data (the bytes
after the 8-byte header), with the two ghost position lists. -/
structure JsonPath where
  lax : Bool
  ext : Bool
  data : List Nat
  starts : List Nat
  slots : List Nat
  deriving DecidableEq

/-- `jsonPathFromCstring` after parsing (jsonpath.c:178-211): 8 header bytes,
then the flattened root at nesting level 0, outside any array subscript; the
header flags are set from the parse result. -/
def jsonPathEncode (pr : JsonPathParseResult) : Except JsonPathEncError JsonPath :=
  (flattenJsonPathParseItem pr.ext pr.expr 0 false
      ⟨List.replicate 8 32, [], []⟩).map fun r =>
    match r with
    | (st, _) => ⟨pr.lax, pr.ext, st.buf.drop 8, st.starts, st.slots⟩

def exceptOk {ε α : Type} : Except ε α → Bool
  | .ok _ => true
  | .error _ => false

/-! ## Cursor / decoder (`jspInitByBuffer` and the `jspGet*` accessors)

The C cursor decodes one node lazily and materialises children on demand; the
decoder below follows the same per-kind byte layout but builds the whole tree
(with a structural fuel argument for termination).  It is used to check the
concrete layout/printing claims against the bytes the encoder produced. -/

def readByteAt (data : List Nat) (p : Nat) : Option Nat := data.get? p

def readInt32At (data : List Nat) (p : Nat) : Option Nat :=
  match data.get? p, data.get? (p + 1), data.get? (p + 2), data.get? (p + 3) with
  | some b0, some b1, some b2, some b3 =>
    some (b0 + 256 * b1 + 65536 * b2 + 16777216 * b3)
  | _, _, _, _ => none

def readStringAt (data : List Nat) (p len : Nat) : Option String :=
  if p + len ≤ data.length then
    some (String.mk (((data.drop p).take len).map (fun n => Char.ofNat n)))
  else none

def binOpOfType : JsonPathItemType → Option JspBinaryOp
  | .jpiAnd => some .opAnd | .jpiOr => some .opOr
  | .jpiEqual => some .opEqual | .jpiNotEqual => some .opNotEqual
  | .jpiLess => some .opLess | .jpiGreater => some .opGreater
  | .jpiLessOrEqual => some .opLessOrEqual | .jpiGreaterOrEqual => some .opGreaterOrEqual
  | .jpiAdd => some .opAdd | .jpiSub => some .opSub | .jpiMul => some .opMul
  | .jpiDiv => some .opDiv | .jpiMod => some .opMod
  | .jpiStartsWith => some .opStartsWith
  | _ => none

def unOpOfType : JsonPathItemType → Option JspUnaryOp
  | .jpiFilter => some .opFilter | .jpiIsUnknown => some .opIsUnknown
  | .jpiNot => some .opNot | .jpiPlus => some .opPlus | .jpiMinus => some .opMinus
  | .jpiExists => some .opExists | .jpiDatetime => some .opDatetime
  | .jpiArray => some .opArray
  | _ => none

def methodOfType : JsonPathItemType → Option JspMethod
  | .jpiType => some .mType | .jpiSize => some .mSize | .jpiAbs => some .mAbs
  | .jpiFloor => some .mFloor | .jpiCeiling => some .mCeiling
  | .jpiDouble => some .mDouble | .jpiKeyValue => some .mKeyValue
  | _ => none

mutual
/-- Decode the node at data-relative position `pos`: type byte, 4-byte
alignment, `next` offset, then the per-kind payload (`jspInitByBuffer`,
jsonpath.c:993-1082), resolving child and `next` offsets recursively
(`jspGetArg`/`jspGetLeftArg`/`jspGetRightArg`/`jspGetNext`/
`jspGetArraySubscript`/`jspGetSequenceElement`/`jspGetObjectField`).
A stored offset 0 decodes as an absent child/successor.  The first argument is
structural fuel (every recursive call consumes one unit); callers supply an
amount that is ample for the buffer at hand. -/
def jspReadItem (fuel : Nat) (data : List Nat) (pos : Nat) : Option PItem :=
  match fuel with
  | 0 => none
  | fuel + 1 =>
    match readByteAt data pos with
    | none => none
    | some tag =>
      match ofTag tag with
      | none => none
      | some ty =>
        let p := INTALIGN (pos + 1)
        match readInt32At data p with
        | none => none
        | some nextPos =>
          let p := p + 4
          let valRes : Option PVal :=
            match ty with
            | .jpiNull => some .pnull
            | .jpiRoot => some .proot
            | .jpiCurrent => some .pcurrent
            | .jpiAnyArray => some .panyArray
            | .jpiAnyKey => some .panyKey
            | .jpiLast => some .plast
            | .jpiType => some (.pmethod .mType)
            | .jpiSize => some (.pmethod .mSize)
            | .jpiAbs => some (.pmethod .mAbs)
            | .jpiFloor => some (.pmethod .mFloor)
            | .jpiCeiling => some (.pmethod .mCeiling)
            | .jpiDouble => some (.pmethod .mDouble)
            | .jpiKeyValue => some (.pmethod .mKeyValue)
            | .jpiKey =>
              match readInt32At data p with
              | none => none
              | some len =>
                match readStringAt data (p + 4) len with
                | none => none
                | some s => some (.pkey s)
            | .jpiString =>
              match readInt32At data p with
              | none => none
              | some len =>
                match readStringAt data (p + 4) len with
                | none => none
                | some s => some (.pstring s)
            | .jpiVariable =>
              match readInt32At data p with
              | none => none
              | some len =>
                match readStringAt data (p + 4) len with
                | none => none
                | some s => some (.pvariable s)
            | .jpiNumeric =>
              match readInt32At data p with
              | none => none
              | some sz =>
                match readStringAt data (p + 4) (sz - 4) with
                | none => none
                | some t => some (.pnumeric t)
            | .jpiBool =>
              match readByteAt data p with
              | none => none
              | some b => some (.pbool (b != 0))
            | .jpiAnd | .jpiOr | .jpiEqual | .jpiNotEqual | .jpiLess | .jpiGreater
            | .jpiLessOrEqual | .jpiGreaterOrEqual | .jpiAdd | .jpiSub | .jpiMul
            | .jpiDiv | .jpiMod | .jpiStartsWith =>
              match binOpOfType ty with
              | none => none
              | some op =>
                match readInt32At data p, readInt32At data (p + 4) with
                | some loff, some roff =>
                  match jspReadChildOpt fuel data pos loff with
                  | none => none
                  | some lchild =>
                    match jspReadChildOpt fuel data pos roff with
                    | none => none
                    | some rchild => some (.pbin op lchild rchild)
                | _, _ => none
            | .jpiLikeRegex =>
              match readInt32At data p, readInt32At data (p + 4),
                    readInt32At data (p + 8) with
              | some flags, some eoff, some patlen =>
                match readStringAt data (p + 12) patlen with
                | none => none
                | some pat =>
                  match jspReadItem fuel data (pos + eoff) with
                  | none => none
                  | some e => some (.plikeRegex flags pat e)
              | _, _, _ => none
            | .jpiFilter | .jpiIsUnknown | .jpiNot | .jpiPlus | .jpiMinus
            | .jpiExists | .jpiDatetime | .jpiArray =>
              match unOpOfType ty with
              | none => none
              | some op =>
                match readInt32At data p with
                | none => none
                | some aoff =>
                  match jspReadChildOpt fuel data pos aoff with
                  | none => none
                  | some achild => some (.punary op achild)
            | .jpiIndexArray =>
              match readInt32At data p with
              | none => none
              | some nelems =>
                match jspReadSubscripts fuel data pos (p + 4) nelems with
                | none => none
                | some subs => some (.pindexArray subs)
            | .jpiAny =>
              match readInt32At data p, readInt32At data (p + 4) with
              | some first, some last => some (.pany first last)
              | _, _ => none
            | .jpiSequence =>
              match readInt32At data p with
              | none => none
              | some nelems =>
                match jspReadSeqElems fuel data pos (p + 4) nelems with
                | none => none
                | some elems => some (.psequence elems)
            | .jpiObject =>
              match readInt32At data p with
              | none => none
              | some nfields =>
                match jspReadObjFields fuel data pos (p + 4) nfields with
                | none => none
                | some fields => some (.pobject fields)
            | .jpiSubscript => none
          match valRes with
          | none => none
          | some v =>
            if nextPos = 0 then some (.mk v none)
            else
              match jspReadItem fuel data (pos + nextPos) with
              | none => none
              | some nx => some (.mk v (some nx))
termination_by structural fuel

/-- A stored child offset: 0 means absent, otherwise the child sits at
`parent position + offset`. -/
def jspReadChildOpt (fuel : Nat) (data : List Nat) (pos off : Nat) :
    Option (Option PItem) :=
  match fuel with
  | 0 => none
  | fuel + 1 =>
    match off with
    | 0 => some none
    | _ =>
      match jspReadItem fuel data (pos + off) with
      | none => none
      | some c => some (some c)
termination_by structural fuel

/-- Decode `n` subscript (from, to) offset pairs starting at `p`. -/
def jspReadSubscripts (fuel : Nat) (data : List Nat) (pos p n : Nat) :
    Option (List PSubscript) :=
  match fuel, n with
  | 0, _ => none
  | _ + 1, 0 => some []
  | fuel + 1, n + 1 =>
    match readInt32At data p, readInt32At data (p + 4) with
    | some foff, some toff =>
      match jspReadItem fuel data (pos + foff) with
      | none => none
      | some f =>
        match (match toff with
               | 0 => Option.some Option.none
               | _ =>
                 match jspReadItem fuel data (pos + toff) with
                 | none => none
                 | some t => some (some t)) with
        | none => none
        | some t? =>
          match jspReadSubscripts fuel data pos (p + 8) n with
          | none => none
          | some rest => some (.mk f t? :: rest)
    | _, _ => none
termination_by structural fuel

/-- Decode `n` sequence-element offsets starting at `p`. -/
def jspReadSeqElems (fuel : Nat) (data : List Nat) (pos p n : Nat) :
    Option (List PItem) :=
  match fuel, n with
  | 0, _ => none
  | _ + 1, 0 => some []
  | fuel + 1, n + 1 =>
    match readInt32At data p with
    | none => none
    | some off =>
      match jspReadItem fuel data (pos + off) with
      | none => none
      | some e =>
        match jspReadSeqElems fuel data pos (p + 4) n with
        | none => none
        | some rest => some (e :: rest)
termination_by structural fuel

/-- Decode `n` object-field (key, value) offset pairs starting at `p`. -/
def jspReadObjFields (fuel : Nat) (data : List Nat) (pos p n : Nat) :
    Option (List PField) :=
  match fuel, n with
  | 0, _ => none
  | _ + 1, 0 => some []
  | fuel + 1, n + 1 =>
    match readInt32At data p, readInt32At data (p + 4) with
    | some koff, some voff =>
      match jspReadItem fuel data (pos + koff) with
      | none => none
      | some k =>
        match jspReadItem fuel data (pos + voff) with
        | none => none
        | some v =>
          match jspReadObjFields fuel data pos (p + 8) n with
          | none => none
          | some rest => some (.mk k v :: rest)
    | _, _ => none
termination_by structural fuel
end

/-- Decode the root node of an encoded path (`jspInit`: position 0).  The
fuel `data.length / 4 + 4` bounds the number of nested decoding steps; it is
ample because every serialized node and every offset-array entry occupies at
least 4 bytes of the buffer. -/
def jsonPathDecode (jp : JsonPath) : Option PItem :=
  jspReadItem (jp.data.length / 4 + 4) jp.data 0

/-- The item types along a `next` chain, in order. -/
def chainItemTypes : PItem → List JsonPathItemType
  | .mk v n =>
    v.itemType :: (match n with | none => [] | some i => chainItemTypes i)

/-! ## Printer (`printJsonPathItem`, `jsonPathToCstring`) -/

/-- `operationPriority` (jsonpath.c:925-957). -/
def operationPriority : JsonPathItemType → Int
  | .jpiSequence => -1
  | .jpiOr => 0
  | .jpiAnd => 1
  | .jpiEqual | .jpiNotEqual | .jpiLess | .jpiGreater
  | .jpiLessOrEqual | .jpiGreaterOrEqual | .jpiStartsWith => 2
  | .jpiAdd | .jpiSub => 3
  | .jpiMul | .jpiDiv | .jpiMod => 4
  | .jpiPlus | .jpiMinus => 5
  | _ => 6

/-- `jspOperationName` (jsonpath.c:866-923); the C default raises an internal
"unrecognized jsonpath item type" error, modelled as `""` (unreachable for the
types the printer passes here). -/
def jspOperationName : JsonPathItemType → String
  | .jpiAnd => "&&" | .jpiOr => "||"
  | .jpiEqual => "==" | .jpiNotEqual => "!="
  | .jpiLess => "<" | .jpiGreater => ">"
  | .jpiLessOrEqual => "<=" | .jpiGreaterOrEqual => ">="
  | .jpiPlus | .jpiAdd => "+"
  | .jpiMinus | .jpiSub => "-"
  | .jpiMul => "*" | .jpiDiv => "/" | .jpiMod => "%"
  | .jpiStartsWith => "starts with"
  | .jpiLikeRegex => "like_regex"
  | .jpiType => "type" | .jpiSize => "size" | .jpiKeyValue => "keyvalue"
  | .jpiDouble => "double" | .jpiAbs => "abs" | .jpiFloor => "floor"
  | .jpiCeiling => "ceiling" | .jpiDatetime => "datetime"
  | _ => ""

def jsonHexDigit (n : Nat) : String :=
  if n < 10 then toString n
  else if n = 10 then "a" else if n = 11 then "b" else if n = 12 then "c"
  else if n = 13 then "d" else if n = 14 then "e" else "f"

def jsonHex4 (n : Nat) : String :=
  jsonHexDigit (n / 4096 % 16) ++ jsonHexDigit (n / 256 % 16)
    ++ jsonHexDigit (n / 16 % 16) ++ jsonHexDigit (n % 16)

/-- `escape_json` (src/backend/utils/adt/json.c): double-quote the string,
escaping `\b \f \n \r \t " \\` and rendering other control characters as
`\uXXXX`. -/
def escapeJsonChar (c : Char) : String :=
  if c = Char.ofNat 8 then "\\b"
  else if c = Char.ofNat 12 then "\\f"
  else if c = '\n' then "\\n"
  else if c = '\r' then "\\r"
  else if c = '\t' then "\\t"
  else if c = '"' then "\\\""
  else if c = '\\' then "\\\\"
  else if c.toNat < 32 then "\\u" ++ jsonHex4 c.toNat
  else String.mk [c]

def escape_json (s : String) : String :=
  "\"" ++ String.join (s.toList.map escapeJsonChar) ++ "\""

def PG_UINT32_MAX : Nat := 4294967295

/-- Flag letters of `like_regex` in the order the printer emits them
(jsonpath.c:657-673); the JSP_REGEX_* bits are taken from `utils/jsonpath.h`
(ICASE 0x01, DOTALL 0x02, MLINE 0x04, WSPACE 0x08, QUOTE 0x10). -/
def likeRegexFlagText (flags : Nat) : String :=
  if flags == 0 then ""
  else
    " flag \""
    ++ (if flags &&& 1 != 0 then "i" else "")
    ++ (if flags &&& 2 != 0 then "s" else "")
    ++ (if flags &&& 4 != 0 then "m" else "")
    ++ (if flags &&& 8 != 0 then "x" else "")
    ++ (if flags &&& 16 != 0 then "q" else "")
    ++ "\""

mutual
/-- `printJsonPathItem` (jsonpath.c:572-864): emit the source-syntax text of
the node at `v`; `inKey` says the node is printed as the right-hand side of a
dotted-key context, `printBracketes` that a surrounding parenthesis pair is
requested.  The chained successor, if any, is printed afterwards with
`inKey = true, printBracketes = true` (jsonpath.c:862-863). -/
def printJsonPathItem (v : PItem) (inKey printBracketes : Bool) : String :=
  match v with
  | .mk pv nxt =>
    (match pv with
     | .pnull => "null"
     | .pkey s => (if inKey then "." else "") ++ escape_json s
     | .pstring s => escape_json s
     | .pvariable s => "$" ++ escape_json s
     | .pnumeric t =>
       (if nxt.isSome then "(" else "") ++ t ++ (if nxt.isSome then ")" else "")
     | .pbool b => if b then "true" else "false"
     | .pbin op l r =>
       (if printBracketes then "(" else "")
       ++ printChildOperand l op.itemType
       ++ " " ++ jspOperationName op.itemType ++ " "
       ++ printChildOperand r op.itemType
       ++ (if printBracketes then ")" else "")
     | .plikeRegex flags pat e =>
       (if printBracketes then "(" else "")
       ++ printJsonPathItem e false
            (decide (operationPriority e.val.itemType ≤ operationPriority .jpiLikeRegex))
       ++ " like_regex " ++ escape_json pat
       ++ likeRegexFlagText flags
       ++ (if printBracketes then ")" else "")
     | .punary op arg =>
       match op with
       | .opPlus =>
         (if printBracketes then "(" else "") ++ "+"
         ++ printChildOperand arg .jpiPlus
         ++ (if printBracketes then ")" else "")
       | .opMinus =>
         (if printBracketes then "(" else "") ++ "-"
         ++ printChildOperand arg .jpiMinus
         ++ (if printBracketes then ")" else "")
       | .opFilter => "?(" ++ printChildPlain arg ++ ")"
       | .opNot => "!(" ++ printChildPlain arg ++ ")"
       | .opIsUnknown => "(" ++ printChildPlain arg ++ ") is unknown"
       | .opExists => "exists (" ++ printChildPlain arg ++ ")"
       | .opDatetime => ".datetime(" ++ printChildPlain arg ++ ")"
       | .opArray => "[" ++ printChildPlain arg ++ "]"
     | .pcurrent => "@"
     | .proot => "$"
     | .plast => "last"
     | .panyArray => "[*]"
     | .panyKey => (if inKey then "." else "") ++ "*"
     | .pindexArray elems => "[" ++ printIndexSubscripts elems true ++ "]"
     | .pany first last =>
       (if inKey then "." else "")
       ++ (if first == 0 && last == PG_UINT32_MAX then "**"
           else if first == last then
             (if first == PG_UINT32_MAX then "**\x7blast\x7d"
              else "**\x7b" ++ toString first ++ "\x7d")
           else if first == PG_UINT32_MAX then
             "**\x7blast to " ++ toString last ++ "\x7d"
           else if last == PG_UINT32_MAX then
             "**\x7b" ++ toString first ++ " to last\x7d"
           else "**\x7b" ++ toString first ++ " to " ++ toString last ++ "\x7d")
     | .pmethod m =>
       match m with
       | .mType => ".type()" | .mSize => ".size()" | .mAbs => ".abs()"
       | .mFloor => ".floor()" | .mCeiling => ".ceiling()"
       | .mDouble => ".double()" | .mKeyValue => ".keyvalue()"
     | .psequence elems =>
       (if printBracketes || nxt.isSome then "(" else "")
       ++ printSequenceElems elems true
       ++ (if printBracketes || nxt.isSome then ")" else "")
     | .pobject fields => "\x7b" ++ printObjectFields fields true ++ "\x7d")
    ++ (match nxt with
        | none => ""
        | some nx => printJsonPathItem nx true true)

/-- A left/right/unary operand: printed with parentheses iff its operator
priority is `≤` the parent's (jsonpath.c:630-640, 683-686); an absent operand
(NULL pointer, unreachable for parser output) prints nothing. -/
def printChildOperand (o : Option PItem) (parentTy : JsonPathItemType) : String :=
  match o with
  | none => ""
  | some c =>
    printJsonPathItem c false
      (decide (operationPriority c.val.itemType ≤ operationPriority parentTy))

/-- An argument printed inside self-delimiting punctuation (filter, not,
exists, datetime, array constructor): never externally parenthesized. -/
def printChildPlain (o : Option PItem) : String :=
  match o with
  | none => ""
  | some c => printJsonPathItem c false false

/-- The subscript list of `[...]` (jsonpath.c:733-753): comma-separated,
`from` and optional `to` printed with brackets only when they are sequences. -/
def printIndexSubscripts : List PSubscript → Bool → String
  | [], _ => ""
  | .mk f t :: rest, isFirst =>
    (if isFirst then "" else ",")
    ++ printJsonPathItem f false (f.val.itemType == .jpiSequence)
    ++ (match t with
        | none => ""
        | some tt =>
          " to " ++ printJsonPathItem tt false (tt.val.itemType == .jpiSequence))
    ++ printIndexSubscripts rest false

/-- Sequence elements (jsonpath.c:814-824): separated by `", "`. -/
def printSequenceElems : List PItem → Bool → String
  | [], _ => ""
  | e :: rest, isFirst =>
    (if isFirst then "" else ", ")
    ++ printJsonPathItem e false (e.val.itemType == .jpiSequence)
    ++ printSequenceElems rest false

/-- Object fields (jsonpath.c:841-854): `key: value` separated by `", "`. -/
def printObjectFields : List PField → Bool → String
  | [], _ => ""
  | .mk k v :: rest, isFirst =>
    (if isFirst then "" else ", ")
    ++ printJsonPathItem k false false
    ++ ": "
    ++ printJsonPathItem v false (v.val.itemType == .jpiSequence)
    ++ printObjectFields rest false
end

/-- `jsonPathToCstring` (jsonpath.c:219-241): optional `pg ` and `strict `
prefixes, then the root item printed with brackets unless it is a sequence. -/
def jsonPathToCstring (lax ext : Bool) (root : PItem) : String :=
  (if ext then "pg " else "")
  ++ (if lax then "" else "strict ")
  ++ printJsonPathItem root false (root.val.itemType != .jpiSequence)

/-- Decode an encoded path and print it (`jsonpath_out` composition). -/
def jsonPathPrint (jp : JsonPath) : Option String :=
  match jsonPathDecode jp with
  | none => none
  | some root => some (jsonPathToCstring jp.lax jp.ext root)

def exC8parse : JsonPathParseResult :=
  ⟨.mk .proot (some (.mk (.pkey ("a")) (some (.mk .panyArray
      (some (.mk (.pmethod .mType) none)))))), true, false⟩

def jpC8 : JsonPath :=
  match jsonPathEncode exC8parse with
  | .ok jp => jp
  | .error _ => ⟨true, false, [], [], []⟩


/-! ## Mutability analysis (`jspIsMutableWalker`, `jspIsMutable`)

External collaborators: `datetime_format_flags(template) & DCH_ZONED` is the
`String → Bool` parameter `fmtZoned`; the `varnames`/`varexprs` lists with
`exprType` applied are modelled as a pre-resolved `(name, declared type)`
list. -/

/-- `enum JsonPathDatatypeStatus` (jsonpath.c:1259-1266). -/
inductive JsonPathDatatypeStatus where
  | jpdsNonDateTime
  | jpdsUnknownDateTime
  | jpdsDateTimeZoned
  | jpdsDateTimeNonZoned
  deriving DecidableEq, Fintype

/-- The declared type of a variable expression, as classified by the
`switch (exprType(varexpr))` at jsonpath.c:1333-1349. -/
inductive PgVarType where
  | dateOid | timeOid | timestampOid | timetzOid | timestamptzOid | otherOid
  deriving DecidableEq

/-- `JsonPathMutableContext` (jsonpath.c:1268-1276); `varnames`/`varexprs` are
zipped into `vars`. -/
structure JsonPathMutableContext where
  vars : List (String × PgVarType)
  current : JsonPathDatatypeStatus
  lax : Bool
  mutableFlag : Bool
  deriving DecidableEq

/-- The datatype status assigned per declared type (jsonpath.c:1333-1349). -/
def exprTypeStatus : PgVarType → JsonPathDatatypeStatus
  | .dateOid | .timeOid | .timestampOid => .jpdsDateTimeNonZoned
  | .timetzOid | .timestamptzOid => .jpdsDateTimeZoned
  | .otherOid => .jpdsNonDateTime

/-- Byte-level prefix test: `strncmp(declared, referenced, len) == 0` with
`len` the byte length of `referenced` (for NUL-free strings this says the
referenced name is a prefix of the declared name). -/
def charsPrefix : List Char → List Char → Bool
  | [], _ => true
  | _ :: _, [] => false
  | c :: cs, d :: ds => (c.toNat == d.toNat) && charsPrefix cs ds

/-- The `jpiVariable` lookup loop (jsonpath.c:1325-1352): scan the declared
variables in order; the match test is `strncmp(varname->sval, name, len) == 0`
with `len` the length of the referenced name, i.e. (for NUL-free strings) the
referenced name must be a prefix of the declared name; the first matching
entry decides the status and the scan stops; no match leaves
`jpdsNonDateTime`. -/
def resolveVarStatus (vars : List (String × PgVarType)) (name : String) :
    JsonPathDatatypeStatus :=
  match vars with
  | [] => .jpdsNonDateTime
  | (vn, ty) :: rest =>
    if charsPrefix name.toList vn.toList then exprTypeStatus ty
    else resolveVarStatus rest name

/-- The comparison-mutability condition (jsonpath.c:1373-1378). -/
def comparisonMutable (l r : JsonPathDatatypeStatus) : Bool :=
  l != .jpdsNonDateTime && r != .jpdsNonDateTime &&
    (l == .jpdsUnknownDateTime || r == .jpdsUnknownDateTime || l != r)

/-- The comparison operators of the walker's case list (jsonpath.c:1356-1361). -/
def JspBinaryOp.isComparison : JspBinaryOp → Bool
  | .opEqual | .opNotEqual | .opLess | .opGreater
  | .opLessOrEqual | .opGreaterOrEqual => true
  | _ => false

mutual
/-- The `while (!cxt->mutable)` chain loop of `jspIsMutableWalker`
(jsonpath.c:1287-1490): process the current item, then follow the `next`
link; the running `status` starts at `jpdsNonDateTime` and is returned when
the chain (or the loop condition) ends. -/
def jspWalkLoop (fmtZoned : String → Bool) (jpi : PItem)
    (cxt : JsonPathMutableContext) (status : JsonPathDatatypeStatus) :
    JsonPathDatatypeStatus × JsonPathMutableContext :=
  if cxt.mutableFlag then (status, cxt)
  else
    match jpi with
    | .mk v nxt =>
      match jspWalkStep fmtZoned v status cxt with
      | (status, cxt) =>
        match nxt with
        | none => (status, cxt)
        | some nx => jspWalkLoop fmtZoned nx cxt status
termination_by structural jpi

/-- The body of the walker's `switch (jpi->type)` for one item
(jsonpath.c:1293-1482).  `jpiArray`, `jpiSequence` and `jpiObject` have no
case in the C switch, so they fall through with the status and context
unchanged and without walking their children. -/
def jspWalkStep (fmtZoned : String → Bool) (v : PVal)
    (status : JsonPathDatatypeStatus) (cxt : JsonPathMutableContext) :
    JsonPathDatatypeStatus × JsonPathMutableContext :=
  match v with
  | .proot => (status, cxt)
  | .pcurrent => (cxt.current, cxt)
  | .punary op arg =>
    match op with
    | .opFilter =>
      (match arg with
       | none => (status, cxt)
       | some a =>
         let prevStatus := cxt.current
         let cxt' := { cxt with current := status }
         match jspWalkLoop fmtZoned a cxt' .jpdsNonDateTime with
         | (_, c2) => (status, { c2 with current := prevStatus }))
    | .opNot | .opIsUnknown | .opExists | .opPlus | .opMinus =>
      (match arg with
       | none => (status, cxt)
       | some a =>
         match jspWalkLoop fmtZoned a cxt .jpdsNonDateTime with
         | (_, c2) => (status, c2))
    | .opDatetime =>
      (match arg with
       | none => (.jpdsUnknownDateTime, cxt)
       | some a =>
         match a with
         | .mk (.pstring s) _ =>
           (if fmtZoned s then .jpdsDateTimeZoned else .jpdsDateTimeNonZoned, cxt)
         | _ => (.jpdsNonDateTime, cxt))
    | .opArray => (status, cxt)
  | .pvariable s => (resolveVarStatus cxt.vars s, cxt)
  | .pbin op l r =>
    if op.isComparison then
      match jspWalkOptArg fmtZoned l cxt with
      | (leftStatus, c1) =>
        match jspWalkOptArg fmtZoned r c1 with
        | (rightStatus, c2) =>
          (status,
           { c2 with mutableFlag :=
               c2.mutableFlag || comparisonMutable leftStatus rightStatus })
    else
      match jspWalkOptArg fmtZoned l cxt with
      | (_, c1) =>
        match jspWalkOptArg fmtZoned r c1 with
        | (_, c2) => (status, c2)
  | .plikeRegex _ _ e =>
    match jspWalkLoop fmtZoned e cxt .jpdsNonDateTime with
    | (_, c2) => (status, c2)
  | .pindexArray elems =>
    let c2 := jspWalkSubscripts fmtZoned elems cxt
    (if c2.lax then status else .jpdsNonDateTime, c2)
  | .panyArray => (if cxt.lax then status else .jpdsNonDateTime, cxt)
  | .pany first _ => (if 0 < first then .jpdsNonDateTime else status, cxt)
  | .pnull => (.jpdsNonDateTime, cxt)
  | .pstring _ => (.jpdsNonDateTime, cxt)
  | .pnumeric _ => (.jpdsNonDateTime, cxt)
  | .pbool _ => (.jpdsNonDateTime, cxt)
  | .pkey _ => (.jpdsNonDateTime, cxt)
  | .panyKey => (.jpdsNonDateTime, cxt)
  | .plast => (.jpdsNonDateTime, cxt)
  | .pmethod _ => (.jpdsNonDateTime, cxt)
  | .psequence _ => (status, cxt)
  | .pobject _ => (status, cxt)
termination_by structural v

/-- A left/right comparison or arithmetic operand: a fresh sub-walk starting
from status `jpdsNonDateTime` (`jspIsMutableWalker(&arg, cxt)`); an absent
operand (NULL pointer, unreachable for parser output) contributes
`jpdsNonDateTime` without walking. -/
def jspWalkOptArg (fmtZoned : String → Bool) (o : Option PItem)
    (cxt : JsonPathMutableContext) :
    JsonPathDatatypeStatus × JsonPathMutableContext :=
  match o with
  | none => (.jpdsNonDateTime, cxt)
  | some a => jspWalkLoop fmtZoned a cxt .jpdsNonDateTime
termination_by structural o

/-- The `jpiIndexArray` loop (jsonpath.c:1406-1416): for each subscript, walk
the `to` bound first (when present), then the `from` bound; the sub-walk
statuses are discarded. -/
def jspWalkSubscripts (fmtZoned : String → Bool) (elems : List PSubscript)
    (cxt : JsonPathMutableContext) : JsonPathMutableContext :=
  match elems with
  | [] => cxt
  | .mk f t :: rest =>
    let c1 := match t with
      | none => cxt
      | some tt => (jspWalkLoop fmtZoned tt cxt .jpdsNonDateTime).2
    let c2 := (jspWalkLoop fmtZoned f c1 .jpdsNonDateTime).2
    jspWalkSubscripts fmtZoned rest c2
termination_by structural elems
end

/-- `jspIsMutableWalker` (jsonpath.c:1281-1491): the recursive walker entry
point, with the local `status` initialised to `jpdsNonDateTime`. -/
def jspIsMutableWalker (fmtZoned : String → Bool) (jpi : PItem)
    (cxt : JsonPathMutableContext) :
    JsonPathDatatypeStatus × JsonPathMutableContext :=
  jspWalkLoop fmtZoned jpi cxt .jpdsNonDateTime

/-- `jspIsMutable` (jsonpath.c:1496-1512): build the initial context
(current = `jpdsNonDateTime`, `lax` from the header, `mutable` = false), walk
the root chain, return the accumulated flag. -/
def jspIsMutable (fmtZoned : String → Bool) (path : JsonPath)
    (vars : List (String × PgVarType)) : Bool :=
  match jsonPathDecode path with
  | none => false
  | some root =>
    (jspIsMutableWalker fmtZoned root ⟨vars, .jpdsNonDateTime, path.lax, false⟩).2.mutableFlag

/-! ## Binary-mode receive (`jsonpath_recv`) -/

inductive JsonPathRecvError where
  | unsupportedVersion (v : Nat)
  | insufficientData
  deriving DecidableEq

/-- `JSONPATH_VERSION`: "For now, only version 1 is supported"
(jsonpath.c:116-118). -/
def JSONPATH_VERSION : Nat := 1

/-- `jsonpath_recv` (jsonpath.c:120-134): read a 1-byte version prefix; if it
matches `JSONPATH_VERSION`, hand the remaining bytes to the text input path
(`jsonPathFromCstring`, an external composition of the parser and the encoder,
passed here as the function argument); otherwise fail without touching the
remaining bytes. -/
def jsonpath_recv {α : Type} (jsonPathFromCstringF : List Nat → α)
    (msg : List Nat) : Except JsonPathRecvError α :=
  match msg with
  | [] => .error .insufficientData
  | version :: rest =>
    if version = JSONPATH_VERSION then .ok (jsonPathFromCstringF rest)
    else .error (.unsupportedVersion version)


/-! ## Claim C9: binary-mode receive version gate -/

/-- C9: the binary-mode receive path reads a 1-byte version prefix; a version
other than the supported `JSONPATH_VERSION` fails with an unsupported-version
error and the result does not depend on the decoder function or the message
body (the body is never decoded); a matching version hands exactly the
remaining bytes to the textual decoding path. -/
theorem recv_version_gate {α : Type} (f g : List Nat → α) (version : Nat)
    (body body' : List Nat) (h : version ≠ JSONPATH_VERSION) :
    jsonpath_recv f (version :: body) = .error (.unsupportedVersion version)
    ∧ jsonpath_recv f (version :: body) = jsonpath_recv g (version :: body')
    ∧ jsonpath_recv f (JSONPATH_VERSION :: body) = .ok (f body) := by
  refine ⟨?_, ?_, ?_⟩ <;> simp [jsonpath_recv, h]

theorem recv_version_gate_witness :
    (2 : Nat) ≠ JSONPATH_VERSION
    ∧ jsonpath_recv (fun l => l.length) ([2, 65, 66])
        = .error (.unsupportedVersion 2) :=
  ⟨by decide,
   (recv_version_gate (fun l => l.length) (fun l => l.length) 2 [65, 66] []
     (by decide)).1⟩

/-! ## Claim C8: encoding and printing `$.a[*].type()` -/

/-- C8 counterexample: the encoded chain for `$.a[*].type()` has 4 nodes, not
3 (the root `$` item is the first node of the chain, cf. the structure
`$ => .a => [*] => .type()` documented at jsonpath.c:11-17), and the printed
text is `$."a"[*].type()`, not `$.a[*].type()` (keys are printed
JSON-quoted). -/
theorem encode_example_chain_cex :
    ¬ ((match jsonPathDecode jpC8 with
        | some root => chainItemTypes root
        | none => []).length = 3)
    ∧ ¬ ((match jsonPathDecode jpC8 with
          | some root => jsonPathToCstring jpC8.lax jpC8.ext root
          | none => "") = "$.a[*].type()") := by decide

/-- C8 (amended): encoding the parse of `$.a[*].type()` succeeds and yields a
chain of exactly 4 nodes (root, key-accessor `a`, wildcard-array, type-method)
linked by `next` offsets, and printing the encoded form produces exactly
`$."a"[*].type()`. -/
theorem encode_example_chain :
    exceptOk (jsonPathEncode exC8parse) = true
    ∧ (match jsonPathDecode jpC8 with
       | some root => chainItemTypes root
       | none => []) = [.jpiRoot, .jpiKey, .jpiAnyArray, .jpiType]
    ∧ (match jsonPathDecode jpC8 with
       | some root => jsonPathToCstring jpC8.lax jpC8.ext root
       | none => "") = "$.\"a\"[*].type()" := by decide

/-! ## Claim C3: node-start alignment -/

/-- The parse of `$.a.b`: a root item chained to two key accessors. -/
def exC3parse : JsonPathParseResult :=
  ⟨.mk .proot (some (.mk (.pkey ("a")) (some (.mk (.pkey ("b")) none)))),
   true, false⟩

def jpC3 : JsonPath :=
  match jsonPathEncode exC3parse with
  | .ok jp => jp
  | .error _ => ⟨true, false, [], [], []⟩

/-- C3 counterexample: encoding `$.a.b` succeeds, and the third node (the key
accessor `b`) starts at data-relative position 22, which is not a multiple
of 4: the key payload of `.a` (4-byte length, 1 byte `a`, NUL) ends at 22 and
the next item's kind tag is appended there without prior alignment
(`flattenJsonPathParseItem` aligns only after writing the tag,
jsonpath.c:273-280). -/
theorem node_start_alignment_cex :
    exceptOk (jsonPathEncode exC3parse) = true
    ∧ jpC3.starts = [0, 8, 22]
    ∧ ¬ (22 % 4 = 0) := by decide

/-! ## Claim C6: operator priorities and parenthesization -/

/-- The parse of `$.a + $.b * 2`. -/
def exC6sum : JsonPathParseResult :=
  ⟨.mk (.pbin .opAdd
      (some (.mk .proot (some (.mk (.pkey ("a")) none))))
      (some (.mk (.pbin .opMul
        (some (.mk .proot (some (.mk (.pkey ("b")) none))))
        (some (.mk (.pnumeric ("2")) none))) none))) none,
   true, false⟩

/-- The parse of `($.a + $.b) * 2`. -/
def exC6prod : JsonPathParseResult :=
  ⟨.mk (.pbin .opMul
      (some (.mk (.pbin .opAdd
        (some (.mk .proot (some (.mk (.pkey ("a")) none))))
        (some (.mk .proot (some (.mk (.pkey ("b")) none))))) none))
      (some (.mk (.pnumeric ("2")) none))) none,
   true, false⟩

def jpC6sum : JsonPath :=
  match jsonPathEncode exC6sum with
  | .ok jp => jp
  | .error _ => ⟨true, false, [], [], []⟩

def jpC6prod : JsonPath :=
  match jsonPathEncode exC6prod with
  | .ok jp => jp
  | .error _ => ⟨true, false, [], [], []⟩

/-- C6: (i) each binary operand is printed with the parenthesize flag set iff
the operand's operator priority is `≤` the parent's; (ii) the priority table
is sequence < or < and < comparisons/starts-with < add/subtract <
multiply/divide/modulo < unary plus/minus < everything else; (iii) printing
the encoding of `$.a + $.b * 2` does not parenthesize the multiplication
while printing the encoding of `($.a + $.b) * 2` parenthesizes the addition
(the printer adds one outer pair around a top-level binary item,
jsonpath.c:238). -/
theorem binary_print_parenthesization :
    (∀ (c : PItem) (ty : JsonPathItemType),
      printChildOperand (some c) ty
        = printJsonPathItem c false
            (decide (operationPriority c.val.itemType ≤ operationPriority ty)))
    ∧ (operationPriority .jpiSequence < operationPriority .jpiOr
       ∧ operationPriority .jpiOr < operationPriority .jpiAnd
       ∧ operationPriority .jpiAnd < operationPriority .jpiEqual
       ∧ operationPriority .jpiEqual = 2 ∧ operationPriority .jpiNotEqual = 2
       ∧ operationPriority .jpiLess = 2 ∧ operationPriority .jpiGreater = 2
       ∧ operationPriority .jpiLessOrEqual = 2
       ∧ operationPriority .jpiGreaterOrEqual = 2
       ∧ operationPriority .jpiStartsWith = 2
       ∧ operationPriority .jpiEqual < operationPriority .jpiAdd
       ∧ operationPriority .jpiAdd = 3 ∧ operationPriority .jpiSub = 3
       ∧ operationPriority .jpiAdd < operationPriority .jpiMul
       ∧ operationPriority .jpiMul = 4 ∧ operationPriority .jpiDiv = 4
       ∧ operationPriority .jpiMod = 4
       ∧ operationPriority .jpiMul < operationPriority .jpiPlus
       ∧ operationPriority .jpiPlus = 5 ∧ operationPriority .jpiMinus = 5
       ∧ operationPriority .jpiPlus < operationPriority .jpiRoot
       ∧ ∀ t : JsonPathItemType, operationPriority t = 6
           ∨ t ∈ ([.jpiSequence, .jpiOr, .jpiAnd, .jpiEqual, .jpiNotEqual,
                   .jpiLess, .jpiGreater, .jpiLessOrEqual, .jpiGreaterOrEqual,
                   .jpiStartsWith, .jpiAdd, .jpiSub, .jpiMul, .jpiDiv, .jpiMod,
                   .jpiPlus, .jpiMinus] : List JsonPathItemType))
    ∧ (match jsonPathDecode jpC6sum with
       | some root => jsonPathToCstring jpC6sum.lax jpC6sum.ext root
       | none => "") = "($.\"a\" + $.\"b\" * 2)"
    ∧ (match jsonPathDecode jpC6prod with
       | some root => jsonPathToCstring jpC6prod.lax jpC6prod.ext root
       | none => "") = "(($.\"a\" + $.\"b\") * 2)" := by
  refine ⟨fun c ty => rfl, by decide, by decide, by decide⟩

/-! ## Walker invariant: the `lax` field is never written by the walk -/

mutual
theorem jspWalkLoop_lax (fz : String → Bool) (jpi : PItem)
    (cxt : JsonPathMutableContext) (status : JsonPathDatatypeStatus) :
    (jspWalkLoop fz jpi cxt status).2.lax = cxt.lax := by
  match jpi with
  | .mk v nxt =>
    by_cases hm : cxt.mutableFlag
    · simp [jspWalkLoop, hm]
    · rcases hs : jspWalkStep fz v status cxt with ⟨s', c'⟩
      have hstep : c'.lax = cxt.lax := by
        have h0 := jspWalkStep_lax fz v status cxt
        rw [hs] at h0
        simpa using h0
      match nxt with
      | none => simp [jspWalkLoop, hm, hs, hstep]
      | some nx =>
        have hloop := jspWalkLoop_lax fz nx c' s'
        simp [jspWalkLoop, hm, hs, hloop, hstep]
termination_by structural jpi

theorem jspWalkStep_lax (fz : String → Bool) (v : PVal)
    (status : JsonPathDatatypeStatus) (cxt : JsonPathMutableContext) :
    (jspWalkStep fz v status cxt).2.lax = cxt.lax := by
  match v with
  | .proot | .pcurrent | .pnull | .pstring _ | .pnumeric _ | .pbool _
  | .pkey _ | .panyKey | .plast | .pmethod _ | .psequence _ | .pobject _
  | .pvariable _ | .panyArray | .pany _ _ =>
    simp [jspWalkStep]
  | .punary op arg =>
    match op with
    | .opFilter =>
      match arg with
      | none => simp [jspWalkStep]
      | some a =>
        rcases hw : jspWalkLoop fz a { cxt with current := status } .jpdsNonDateTime
          with ⟨s', c'⟩
        have h : c'.lax = cxt.lax := by
          have h0 := jspWalkLoop_lax fz a { cxt with current := status }
            .jpdsNonDateTime
          rw [hw] at h0
          simpa using h0
        simp [jspWalkStep, hw, h]
    | .opNot | .opIsUnknown | .opExists | .opPlus | .opMinus =>
      match arg with
      | none => simp [jspWalkStep]
      | some a =>
        rcases hw : jspWalkLoop fz a cxt .jpdsNonDateTime with ⟨s', c'⟩
        have h : c'.lax = cxt.lax := by
          have h0 := jspWalkLoop_lax fz a cxt .jpdsNonDateTime
          rw [hw] at h0
          simpa using h0
        simp [jspWalkStep, hw, h]
    | .opDatetime =>
      match arg with
      | none => simp [jspWalkStep]
      | some a => match a with
        | .mk (.pstring s) _ => simp [jspWalkStep]
        | .mk .pnull _ | .mk (.pnumeric _) _ | .mk (.pbool _) _
        | .mk (.pbin _ _ _) _ | .mk (.plikeRegex _ _ _) _ | .mk (.punary _ _) _
        | .mk .proot _ | .mk .pcurrent _ | .mk .panyArray _ | .mk .panyKey _
        | .mk .plast _ | .mk (.pkey _) _ | .mk (.pvariable _) _
        | .mk (.pindexArray _) _ | .mk (.pany _ _) _ | .mk (.pmethod _) _
        | .mk (.psequence _) _ | .mk (.pobject _) _ => simp [jspWalkStep]
    | .opArray => simp [jspWalkStep]
  | .pbin op l r =>
    rcases hwl : jspWalkOptArg fz l cxt with ⟨ls, c1⟩
    have hl : c1.lax = cxt.lax := by
      have h0 := jspWalkOptArg_lax fz l cxt
      rw [hwl] at h0
      simpa using h0
    rcases hwr : jspWalkOptArg fz r c1 with ⟨rs, c2⟩
    have hr : c2.lax = c1.lax := by
      have h0 := jspWalkOptArg_lax fz r c1
      rw [hwr] at h0
      simpa using h0
    by_cases hc : op.isComparison
    · simp [jspWalkStep, hwl, hwr, hc, hl, hr]
    · simp [jspWalkStep, hwl, hwr, hc, hl, hr]
  | .plikeRegex _ _ e =>
    rcases hw : jspWalkLoop fz e cxt .jpdsNonDateTime with ⟨s', c'⟩
    have h : c'.lax = cxt.lax := by
      have h0 := jspWalkLoop_lax fz e cxt .jpdsNonDateTime
      rw [hw] at h0
      simpa using h0
    simp [jspWalkStep, hw, h]
  | .pindexArray elems =>
    have h := jspWalkSubscripts_lax fz elems cxt
    simp [jspWalkStep, h]
termination_by structural v

theorem jspWalkOptArg_lax (fz : String → Bool) (o : Option PItem)
    (cxt : JsonPathMutableContext) :
    (jspWalkOptArg fz o cxt).2.lax = cxt.lax := by
  match o with
  | none => simp [jspWalkOptArg]
  | some a =>
    have h := jspWalkLoop_lax fz a cxt .jpdsNonDateTime
    simpa [jspWalkOptArg] using h
termination_by structural o

theorem jspWalkSubscripts_lax (fz : String → Bool) (elems : List PSubscript)
    (cxt : JsonPathMutableContext) :
    (jspWalkSubscripts fz elems cxt).lax = cxt.lax := by
  match elems with
  | [] => simp [jspWalkSubscripts]
  | .mk f t :: rest =>
    match t with
    | none =>
      have hf := jspWalkLoop_lax fz f cxt .jpdsNonDateTime
      have hrest := jspWalkSubscripts_lax fz rest
        (jspWalkLoop fz f cxt .jpdsNonDateTime).2
      simp [jspWalkSubscripts, hrest, hf]
    | some tt =>
      have ht := jspWalkLoop_lax fz tt cxt .jpdsNonDateTime
      have hf := jspWalkLoop_lax fz f (jspWalkLoop fz tt cxt .jpdsNonDateTime).2
        .jpdsNonDateTime
      have hrest := jspWalkSubscripts_lax fz rest
        (jspWalkLoop fz f (jspWalkLoop fz tt cxt .jpdsNonDateTime).2
          .jpdsNonDateTime).2
      simp [jspWalkSubscripts, hrest, hf, ht]
termination_by structural elems
end

/-! ## Claim C10: indexed array subscripts in strict vs lax mode -/

/-- C10: an indexed array-subscript step first walks each subscript's `to` and
`from` expressions (context effects only), then collapses the subject's
datetime status to not-a-datetime exactly when the mode is strict, exactly as
a wildcard-array step does; in lax mode the status passes through unchanged.
The last conjunct shows it on a chain `@ → [...]`: the subject status that
`@` produced survives the subscript step iff the mode is lax. -/
theorem indexed_subscript_status (fz : String → Bool) (elems : List PSubscript)
    (s : JsonPathDatatypeStatus) (cxt : JsonPathMutableContext)
    (h : cxt.mutableFlag = false) :
    ((jspWalkStep fz (.pindexArray elems) s cxt).1
        = if cxt.lax then s else .jpdsNonDateTime)
    ∧ ((jspWalkStep fz (.pindexArray elems) s cxt).2
        = jspWalkSubscripts fz elems cxt)
    ∧ ((jspWalkStep fz .panyArray s cxt).1
        = if cxt.lax then s else .jpdsNonDateTime)
    ∧ ((jspIsMutableWalker fz
          (.mk .pcurrent (some (.mk (.pindexArray elems) none))) cxt).1
        = if cxt.lax then cxt.current else .jpdsNonDateTime) := by
  have hsub := jspWalkSubscripts_lax fz elems cxt
  refine ⟨by simp [jspWalkStep, hsub], by simp [jspWalkStep], by simp [jspWalkStep], ?_⟩
  simp [jspIsMutableWalker, jspWalkLoop, jspWalkStep, h, hsub]

theorem indexed_subscript_status_witness :
    (((jspWalkStep (fun _ => false) (.pindexArray []) .jpdsDateTimeZoned
        ⟨[], .jpdsDateTimeZoned, false, false⟩).1
        = if (false : Bool) then .jpdsDateTimeZoned else .jpdsNonDateTime)
    ∧ ((jspWalkStep (fun _ => false) (.pindexArray []) .jpdsDateTimeZoned
        ⟨[], .jpdsDateTimeZoned, false, false⟩).2
        = jspWalkSubscripts (fun _ => false) [] ⟨[], .jpdsDateTimeZoned, false, false⟩)
    ∧ ((jspWalkStep (fun _ => false) .panyArray .jpdsDateTimeZoned
        ⟨[], .jpdsDateTimeZoned, false, false⟩).1
        = if (false : Bool) then .jpdsDateTimeZoned else .jpdsNonDateTime)
    ∧ ((jspIsMutableWalker (fun _ => false)
          (.mk .pcurrent (some (.mk (.pindexArray []) none)))
          ⟨[], .jpdsDateTimeZoned, false, false⟩).1
        = if (false : Bool) then .jpdsDateTimeZoned else .jpdsNonDateTime)) :=
  indexed_subscript_status (fun _ => false) [] .jpdsDateTimeZoned
    ⟨[], .jpdsDateTimeZoned, false, false⟩ rfl

/-! ## Claim C2: comparison nodes and mutability -/

/-- The comparison operators named by the claim (`=`, `<>`, `<`, `>`, `<=`,
`>=`). -/
def comparisonOps : List JspBinaryOp :=
  [.opEqual, .opNotEqual, .opLess, .opGreater, .opLessOrEqual, .opGreaterOrEqual]

/-- Spec wording: the side "has some datetime status (not not-a-datetime)". -/
def someDatetimeStatus (s : JsonPathDatatypeStatus) : Prop :=
  s ≠ .jpdsNonDateTime

/-- Spec wording: the two sides "disagree in zoned-ness". -/
def disagreeInZonedness (l r : JsonPathDatatypeStatus) : Prop :=
  (l = .jpdsDateTimeZoned ∧ r = .jpdsDateTimeNonZoned)
  ∨ (l = .jpdsDateTimeNonZoned ∧ r = .jpdsDateTimeZoned)

/-- C2: for a comparison node the walker evaluates the left operand by a fresh
sub-walk, then the right operand by a fresh sub-walk from the resulting
context, and the resulting mutable flag is the flag after the two sub-walks
or-ed with `comparisonMutable` of the two operand statuses; and
`comparisonMutable l r` holds iff both sides have some datetime status and
they disagree in zoned-ness or either side is the unknown-datetime-kind
status. -/
theorem comparison_mutability (fz : String → Bool) (op : JspBinaryOp)
    (l r : PItem) (cxt : JsonPathMutableContext)
    (hop : op ∈ comparisonOps) (h : cxt.mutableFlag = false) :
    ((jspIsMutableWalker fz (.mk (.pbin op (some l) (some r)) none) cxt).2.mutableFlag
      = ((jspIsMutableWalker fz r (jspIsMutableWalker fz l cxt).2).2.mutableFlag
          || comparisonMutable (jspIsMutableWalker fz l cxt).1
               (jspIsMutableWalker fz r (jspIsMutableWalker fz l cxt).2).1))
    ∧ ∀ ls rs : JsonPathDatatypeStatus,
        comparisonMutable ls rs = true
          ↔ ((someDatetimeStatus ls ∧ someDatetimeStatus rs)
             ∧ (disagreeInZonedness ls rs
                ∨ ls = .jpdsUnknownDateTime ∨ rs = .jpdsUnknownDateTime)) := by
  constructor
  · rcases hl : jspWalkLoop fz l cxt .jpdsNonDateTime with ⟨ls, c1⟩
    rcases hr : jspWalkLoop fz r c1 .jpdsNonDateTime with ⟨rs, c2⟩
    simp only [comparisonOps, List.mem_cons, List.not_mem_nil, or_false] at hop
    rcases hop with rfl | rfl | rfl | rfl | rfl | rfl <;>
      simp [jspIsMutableWalker, jspWalkLoop, jspWalkStep, jspWalkOptArg, h,
        hl, hr, JspBinaryOp.isComparison]
  · simp only [someDatetimeStatus, disagreeInZonedness]
    decide

theorem comparison_mutability_witness :
    ((jspIsMutableWalker (fun _ => false)
        (.mk (.pbin .opEqual (some (.mk .pnull none)) (some (.mk .pnull none))) none)
        ⟨[], .jpdsNonDateTime, true, false⟩).2.mutableFlag
      = ((jspIsMutableWalker (fun _ => false) (.mk .pnull none)
            (jspIsMutableWalker (fun _ => false) (.mk .pnull none)
              ⟨[], .jpdsNonDateTime, true, false⟩).2).2.mutableFlag
          || comparisonMutable
               (jspIsMutableWalker (fun _ => false) (.mk .pnull none)
                 ⟨[], .jpdsNonDateTime, true, false⟩).1
               (jspIsMutableWalker (fun _ => false) (.mk .pnull none)
                 (jspIsMutableWalker (fun _ => false) (.mk .pnull none)
                   ⟨[], .jpdsNonDateTime, true, false⟩).2).1))
    ∧ ∀ ls rs : JsonPathDatatypeStatus,
        comparisonMutable ls rs = true
          ↔ ((someDatetimeStatus ls ∧ someDatetimeStatus rs)
             ∧ (disagreeInZonedness ls rs
                ∨ ls = .jpdsUnknownDateTime ∨ rs = .jpdsUnknownDateTime)) :=
  comparison_mutability (fun _ => false) .opEqual (.mk .pnull none) (.mk .pnull none)
    ⟨[], .jpdsNonDateTime, true, false⟩ (by decide) rfl

/-! ## Claim C7: variable-reference status lookup -/

/-- The first-matching-entry lookup, stated with `List.find?`: the first
declared entry whose name has the referenced name as a byte prefix decides
the status; no match gives not-a-datetime. -/
def firstMatchStatus (vars : List (String × PgVarType)) (name : String) :
    JsonPathDatatypeStatus :=
  match vars.find? (fun p => charsPrefix name.toList p.1.toList) with
  | some p => exprTypeStatus p.2
  | none => .jpdsNonDateTime

/-- An exact-name (equality) lookup following the claim's words "matching the
variable's name against the declared names". -/
def exactMatchStatus (vars : List (String × PgVarType)) (name : String) :
    JsonPathDatatypeStatus :=
  match vars.find? (fun p => p.1 == name) with
  | some p => exprTypeStatus p.2
  | none => .jpdsNonDateTime

def cxtC7 : JsonPathMutableContext :=
  ⟨[("ab", .timestamptzOid)], .jpdsNonDateTime, true, false⟩

/-- C7 counterexample: with the single declared variable `ab` of type
timestamptz, the walker resolves the reference `$a` to the zoned status even
though no declared name equals `a` (the `strncmp` at jsonpath.c:1330 compares
only `len` bytes, so the declared name `ab` matches the referenced prefix
`a`); an exact-name lookup would give not-a-datetime. -/
theorem variable_exact_match_cex :
    (jspIsMutableWalker (fun _ => false) (.mk (.pvariable ("a")) none) cxtC7).1
      = .jpdsDateTimeZoned
    ∧ cxtC7.vars.all (fun p => p.1 != ("a")) = true
    ∧ exactMatchStatus cxtC7.vars ("a") = .jpdsNonDateTime := by decide

theorem resolveVarStatus_eq_firstMatch (vars : List (String × PgVarType))
    (name : String) :
    resolveVarStatus vars name = firstMatchStatus vars name := by
  induction vars with
  | nil => simp [resolveVarStatus, firstMatchStatus]
  | cons p rest ih =>
    obtain ⟨vn, ty⟩ := p
    simp only [String.toList] at *
    by_cases hc : charsPrefix name.data vn.data = true
    · simp [resolveVarStatus, firstMatchStatus, List.find?_cons, String.toList, hc]
    · simp only [Bool.not_eq_true] at hc
      simp [resolveVarStatus, firstMatchStatus, List.find?_cons, String.toList,
        hc, ih]

/-- C7 (amended): a variable reference leaves the context unchanged and takes
its datetime status from the first declared entry whose name has the
referenced name as a byte prefix (`strncmp` limited to the reference's
length); if no entry matches, the status is not-a-datetime. -/
theorem variable_lookup_resolution (fz : String → Bool) (name : String)
    (cxt : JsonPathMutableContext) (h : cxt.mutableFlag = false) :
    jspIsMutableWalker fz (.mk (.pvariable name) none) cxt
      = (resolveVarStatus cxt.vars name, cxt)
    ∧ resolveVarStatus cxt.vars name = firstMatchStatus cxt.vars name :=
  ⟨by simp [jspIsMutableWalker, jspWalkLoop, jspWalkStep, h],
   resolveVarStatus_eq_firstMatch _ _⟩

theorem variable_lookup_resolution_witness :
    (jspIsMutableWalker (fun _ => false) (.mk (.pvariable ("b")) none) cxtC7
      = (resolveVarStatus cxtC7.vars ("b"), cxtC7)
    ∧ resolveVarStatus cxtC7.vars ("b") = firstMatchStatus cxtC7.vars ("b")) :=
  variable_lookup_resolution (fun _ => false) ("b") cxtC7 rfl

/-! ## Claim C5: recursion-depth checks at the recursive entry points -/

/-- A filter nest of depth `n`: `?(?(...?(true)...))` as a parse tree. -/
def nestedFilterChain : Nat → PItem
  | 0 => .mk (.pbool true) none
  | n + 1 => .mk (.punary .opFilter (some (nestedFilterChain n))) none

/-- C5 (evidence for the code bug): `flattenJsonPathParseItem` and
`printJsonPathItem` call `check_stack_depth()` on entry (jsonpath.c:270, 579),
but `jspIsMutableWalker` performs no depth check (jsonpath.c:1281-1293): the
walker recurses to any user-controlled depth and returns normally — here it
completes on a filter nest of every depth `n` without any depth-exceeded
failure path (its result type has none). -/
theorem walker_unbounded_recursion (fz : String → Bool) (n : Nat)
    (cxt : JsonPathMutableContext) (h : cxt.mutableFlag = false) :
    jspIsMutableWalker fz (nestedFilterChain n) cxt = (.jpdsNonDateTime, cxt) := by
  induction n generalizing cxt with
  | zero => simp [nestedFilterChain, jspIsMutableWalker, jspWalkLoop, jspWalkStep, h]
  | succ n ih =>
    obtain ⟨vars, cur, lax, mf⟩ := cxt
    simp only [JsonPathMutableContext.mutableFlag] at h
    subst h
    have hih := ih (⟨vars, .jpdsNonDateTime, lax, false⟩ : JsonPathMutableContext) rfl
    simp only [jspIsMutableWalker] at hih
    simp [nestedFilterChain, jspIsMutableWalker, jspWalkLoop, jspWalkStep, hih]

theorem walker_unbounded_recursion_witness :
    jspIsMutableWalker (fun _ => false) (nestedFilterChain 100)
      ⟨[], .jpdsNonDateTime, true, false⟩
      = (.jpdsNonDateTime, ⟨[], .jpdsNonDateTime, true, false⟩) :=
  walker_unbounded_recursion (fun _ => false) 100
    ⟨[], .jpdsNonDateTime, true, false⟩ rfl

/-! ## Claim C4: exactly which inputs make the encoder fail -/

mutual
/-- Pure characterization of encoder success, read off the claim's three
conditions: no array/object/sequence constructor while extensions are
disabled, no current-subject reference at nesting level 0, no last-index
reference outside an array subscript — with the nesting level raised by one
inside a filter's argument and the inside-subscript flag set inside subscript
bound expressions, exactly as the encoder passes them down. -/
def jspCanEncode (ext : Bool) (nestingLevel : Nat) (insideArraySubscript : Bool)
    (item : PItem) : Bool :=
  match item with
  | .mk v nxt =>
    jspCanEncodeVal ext nestingLevel insideArraySubscript v
    && jspCanEncodeOpt ext nestingLevel insideArraySubscript nxt
termination_by structural item

def jspCanEncodeVal (ext : Bool) (nestingLevel : Nat) (insideArraySubscript : Bool)
    (v : PVal) : Bool :=
  match v with
  | .pnull | .pstring _ | .pnumeric _ | .pbool _ | .proot | .panyArray
  | .panyKey | .pkey _ | .pvariable _ | .pany _ _ | .pmethod _ => true
  | .pcurrent => nestingLevel != 0
  | .plast => insideArraySubscript
  | .pbin _ l r =>
    jspCanEncodeOpt ext nestingLevel insideArraySubscript l
    && jspCanEncodeOpt ext nestingLevel insideArraySubscript r
  | .plikeRegex _ _ e => jspCanEncode ext nestingLevel insideArraySubscript e
  | .punary op arg =>
    (!(op == .opArray) || ext)
    && jspCanEncodeOpt ext
        (nestingLevel + (if op = .opFilter then 1 else 0)) insideArraySubscript arg
  | .pindexArray elems => jspCanEncodeSubs ext nestingLevel elems
  | .psequence elems => ext && jspCanEncodeList ext nestingLevel insideArraySubscript elems
  | .pobject fields => ext && jspCanEncodeFields ext nestingLevel insideArraySubscript fields
termination_by structural v

def jspCanEncodeOpt (ext : Bool) (nestingLevel : Nat) (insideArraySubscript : Bool)
    (o : Option PItem) : Bool :=
  match o with
  | none => true
  | some it => jspCanEncode ext nestingLevel insideArraySubscript it
termination_by structural o

def jspCanEncodeSubs (ext : Bool) (nestingLevel : Nat)
    (elems : List PSubscript) : Bool :=
  match elems with
  | [] => true
  | .mk f t :: rest =>
    jspCanEncode ext nestingLevel true f
    && jspCanEncodeOpt ext nestingLevel true t
    && jspCanEncodeSubs ext nestingLevel rest
termination_by structural elems

def jspCanEncodeList (ext : Bool) (nestingLevel : Nat) (insideArraySubscript : Bool)
    (elems : List PItem) : Bool :=
  match elems with
  | [] => true
  | e :: rest =>
    jspCanEncode ext nestingLevel insideArraySubscript e
    && jspCanEncodeList ext nestingLevel insideArraySubscript rest
termination_by structural elems

def jspCanEncodeFields (ext : Bool) (nestingLevel : Nat) (insideArraySubscript : Bool)
    (fields : List PField) : Bool :=
  match fields with
  | [] => true
  | .mk k fv :: rest =>
    jspCanEncode ext nestingLevel insideArraySubscript k
    && jspCanEncode ext nestingLevel insideArraySubscript fv
    && jspCanEncodeFields ext nestingLevel insideArraySubscript rest
termination_by structural fields
end

theorem exceptOk_bind_eq {ε α β : Type} (x : Except ε α) (f : α → Except ε β) :
    exceptOk (x.bind f)
      = (match x with
         | .error _ => false
         | .ok a => exceptOk (f a)) := by
  cases x <;> rfl

theorem exceptOk_map {ε α β : Type} (x : Except ε α) (f : α → β) :
    exceptOk (x.map f) = exceptOk x := by
  cases x <;> rfl

mutual
theorem flattenItem_isOk (ext : Bool) (item : PItem) (nl : Nat) (ias : Bool)
    (st : EncState) :
    exceptOk (flattenJsonPathParseItem ext item nl ias st)
      = jspCanEncode ext nl ias item := by
  match item, st with
  | .mk v nxt, ⟨buf, starts, slots⟩ =>
    simp only [flattenJsonPathParseItem, jspCanEncode, exceptOk_bind_eq]
    split
    · next e heq =>
      have h := congrArg exceptOk heq
      rw [flattenPayload_isOk] at h
      simp only [exceptOk] at h
      simp [jspCanEncode, h]
    · next st2 heq =>
      have h := congrArg exceptOk heq
      rw [flattenPayload_isOk] at h
      simp only [exceptOk] at h
      match nxt with
      | none => simp [jspCanEncode, jspCanEncodeOpt, exceptOk, h]
      | some nx =>
        simp only [exceptOk_bind_eq]
        split
        · next e2 heq2 =>
          have h2 := congrArg exceptOk heq2
          rw [flattenItem_isOk] at h2
          simp only [exceptOk] at h2
          simp [jspCanEncode, jspCanEncodeOpt, h, h2]
        · next r heq2 =>
          have h2 := congrArg exceptOk heq2
          rw [flattenItem_isOk] at h2
          simp only [exceptOk] at h2
          rcases r with ⟨⟨b3, s3, sl3⟩, chld⟩
          simp [jspCanEncode, jspCanEncodeOpt, exceptOk, h, h2]
termination_by structural item

theorem flattenPayload_isOk (ext : Bool) (v : PVal) (nl : Nat) (ias : Bool)
    (st : EncState) (pos : Nat) :
    exceptOk (flattenItemPayload ext v nl ias st pos)
      = jspCanEncodeVal ext nl ias v := by
  match v, st with
  | .pnull, st => rfl
  | .pstring s, ⟨buf, starts, slots⟩ => rfl
  | .pvariable s, ⟨buf, starts, slots⟩ => rfl
  | .pkey s, ⟨buf, starts, slots⟩ => rfl
  | .pnumeric t, ⟨buf, starts, slots⟩ => rfl
  | .pbool b, ⟨buf, starts, slots⟩ => rfl
  | .proot, st => rfl
  | .panyArray, st => rfl
  | .panyKey, st => rfl
  | .pany first last, ⟨buf, starts, slots⟩ => rfl
  | .pmethod m, st => rfl
  | .pcurrent, st =>
    by_cases hnl : nl = 0 <;>
      simp [flattenItemPayload, jspCanEncodeVal, exceptOk, hnl]
  | .plast, st =>
    by_cases hia : ias <;>
      simp [flattenItemPayload, jspCanEncodeVal, exceptOk, hia]
  | .pbin op l r, ⟨buf, starts, slots⟩ =>
    simp only [flattenItemPayload, jspCanEncodeVal, exceptOk_bind_eq]
    split
    · next e heq =>
      have h := congrArg exceptOk heq
      rw [flattenOpt_isOk] at h
      simp only [exceptOk] at h
      simp [h]
    · next r1 heq =>
      have h := congrArg exceptOk heq
      rw [flattenOpt_isOk] at h
      simp only [exceptOk] at h
      rcases r1 with ⟨⟨b1, s1, sl1⟩, chld⟩
      simp only [exceptOk_bind_eq]
      split
      · next e2 heq2 =>
        have h2 := congrArg exceptOk heq2
        rw [flattenOpt_isOk] at h2
        simp only [exceptOk] at h2
        simp [h, h2]
      · next r2 heq2 =>
        have h2 := congrArg exceptOk heq2
        rw [flattenOpt_isOk] at h2
        simp only [exceptOk] at h2
        rcases r2 with ⟨⟨b2, s2, sl2⟩, chld2⟩
        simp [exceptOk, h, h2]
  | .plikeRegex flags pat e, ⟨buf, starts, slots⟩ =>
    simp only [flattenItemPayload, jspCanEncodeVal, exceptOk_bind_eq]
    split
    · next er heq =>
      have h := congrArg exceptOk heq
      rw [flattenItem_isOk] at h
      simp only [exceptOk] at h
      simp [h]
    · next r heq =>
      have h := congrArg exceptOk heq
      rw [flattenItem_isOk] at h
      simp only [exceptOk] at h
      rcases r with ⟨⟨b1, s1, sl1⟩, chld⟩
      simp [exceptOk, h]
  | .punary op arg, ⟨buf, starts, slots⟩ =>
    by_cases hoe : op = .opArray ∧ ext = false
    · obtain ⟨h1, h2⟩ := hoe
      subst h1 h2
      simp [flattenItemPayload, jspCanEncodeVal, exceptOk]
    · have hb : (!(op == .opArray) || ext) = true := by
        by_cases h1 : op = .opArray
        · have h2 : ext = true := by
            rcases Bool.eq_false_or_eq_true ext with h | h
            · exact h
            · exact absurd ⟨h1, h⟩ hoe
          simp [h1, h2]
        · simp [h1]
      match arg with
      | none =>
        simp [flattenItemPayload, jspCanEncodeVal, exceptOk, hoe, hb,
          jspCanEncodeOpt]
      | some a =>
        simp only [flattenItemPayload, jspCanEncodeVal, exceptOk_bind_eq, hb,
          if_neg hoe, Bool.true_and]
        split
        · next er heq =>
          have h := congrArg exceptOk heq
          rw [flattenItem_isOk] at h
          simp only [exceptOk] at h
          simp [jspCanEncodeOpt, h]
        · next r heq =>
          have h := congrArg exceptOk heq
          rw [flattenItem_isOk] at h
          simp only [exceptOk] at h
          rcases r with ⟨⟨b1, s1, sl1⟩, chld⟩
          simp [exceptOk, jspCanEncodeOpt, h]
  | .pindexArray elems, ⟨buf, starts, slots⟩ =>
    simp only [flattenItemPayload, jspCanEncodeVal]
    rw [flattenSubs_isOk]
  | .psequence elems, ⟨buf, starts, slots⟩ =>
    by_cases he : ext = false
    · subst he
      simp [flattenItemPayload, jspCanEncodeVal, exceptOk]
    · have hext : ext = true := by
        rcases Bool.eq_false_or_eq_true ext with h | h
        · exact h
        · exact absurd h he
      subst hext
      simp only [flattenItemPayload, jspCanEncodeVal, if_neg he, Bool.true_and]
      rw [flattenSeq_isOk]
  | .pobject fields, ⟨buf, starts, slots⟩ =>
    by_cases he : ext = false
    · subst he
      simp [flattenItemPayload, jspCanEncodeVal, exceptOk]
    · have hext : ext = true := by
        rcases Bool.eq_false_or_eq_true ext with h | h
        · exact h
        · exact absurd h he
      subst hext
      simp only [flattenItemPayload, jspCanEncodeVal, if_neg he, Bool.true_and]
      rw [flattenFields_isOk]
termination_by structural v

theorem flattenOpt_isOk (ext : Bool) (o : Option PItem) (nl : Nat) (ias : Bool)
    (st : EncState) (pos : Nat) :
    exceptOk (flattenOptChild ext o nl ias st pos)
      = jspCanEncodeOpt ext nl ias o := by
  match o with
  | none => rfl
  | some it =>
    simp only [flattenOptChild, jspCanEncodeOpt]
    rw [flattenItem_isOk]
termination_by structural o

theorem flattenSubs_isOk (ext : Bool) (elems : List PSubscript) (nl : Nat)
    (pos offset : Nat) (st : EncState) :
    exceptOk (flattenIndexArrayElems ext elems nl pos offset st)
      = jspCanEncodeSubs ext nl elems := by
  match elems with
  | [] => rfl
  | .mk f t :: rest =>
    simp only [flattenIndexArrayElems, jspCanEncodeSubs, exceptOk_bind_eq]
    split
    · next er heq =>
      have h := congrArg exceptOk heq
      rw [flattenItem_isOk] at h
      simp only [exceptOk] at h
      simp [h]
    · next rf heq =>
      have h := congrArg exceptOk heq
      rw [flattenItem_isOk] at h
      simp only [exceptOk] at h
      rcases rf with ⟨st1, fp⟩
      simp only [exceptOk_bind_eq]
      split
      · next er2 heq2 =>
        have h2 := congrArg exceptOk heq2
        rw [flattenTo_isOk] at h2
        simp only [exceptOk] at h2
        simp [h, h2]
      · next rt heq2 =>
        have h2 := congrArg exceptOk heq2
        rw [flattenTo_isOk] at h2
        simp only [exceptOk] at h2
        rcases rt with ⟨⟨b2, s2, sl2⟩, topos⟩
        rw [flattenSubs_isOk]
        simp [h, h2]
  termination_by structural elems

theorem flattenTo_isOk (ext : Bool) (t : Option PItem) (nl : Nat)
    (pos : Nat) (st : EncState) :
    exceptOk (flattenIndexArrayTo ext t nl pos st)
      = jspCanEncodeOpt ext nl true t := by
  match t with
  | none => rfl
  | some ti =>
    simp only [flattenIndexArrayTo, jspCanEncodeOpt, exceptOk_bind_eq]
    split
    · next er heq =>
      have h := congrArg exceptOk heq
      rw [flattenItem_isOk] at h
      simp only [exceptOk] at h
      simp [h]
    · next rt heq =>
      have h := congrArg exceptOk heq
      rw [flattenItem_isOk] at h
      simp only [exceptOk] at h
      rcases rt with ⟨st2, tp⟩
      simp [exceptOk, h]
termination_by structural t

theorem flattenSeq_isOk (ext : Bool) (elems : List PItem) (nl : Nat) (ias : Bool)
    (pos offset : Nat) (st : EncState) :
    exceptOk (flattenSequenceElems ext elems nl ias pos offset st)
      = jspCanEncodeList ext nl ias elems := by
  match elems with
  | [] => rfl
  | e :: rest =>
    simp only [flattenSequenceElems, jspCanEncodeList, exceptOk_bind_eq]
    split
    · next er heq =>
      have h := congrArg exceptOk heq
      rw [flattenItem_isOk] at h
      simp only [exceptOk] at h
      simp [h]
    · next r heq =>
      have h := congrArg exceptOk heq
      rw [flattenItem_isOk] at h
      simp only [exceptOk] at h
      rcases r with ⟨⟨b1, s1, sl1⟩, ep⟩
      rw [flattenSeq_isOk]
      simp [h]
termination_by structural elems

theorem flattenFields_isOk (ext : Bool) (fields : List PField) (nl : Nat) (ias : Bool)
    (pos offset : Nat) (st : EncState) :
    exceptOk (flattenObjectFields ext fields nl ias pos offset st)
      = jspCanEncodeFields ext nl ias fields := by
  match fields with
  | [] => rfl
  | .mk k fv :: rest =>
    simp only [flattenObjectFields, jspCanEncodeFields, exceptOk_bind_eq]
    split
    · next er heq =>
      have h := congrArg exceptOk heq
      rw [flattenItem_isOk] at h
      simp only [exceptOk] at h
      simp [h]
    · next rk heq =>
      have h := congrArg exceptOk heq
      rw [flattenItem_isOk] at h
      simp only [exceptOk] at h
      rcases rk with ⟨st1, kp⟩
      simp only [exceptOk_bind_eq]
      split
      · next er2 heq2 =>
        have h2 := congrArg exceptOk heq2
        rw [flattenItem_isOk] at h2
        simp only [exceptOk] at h2
        simp [h, h2]
      · next rv heq2 =>
        have h2 := congrArg exceptOk heq2
        rw [flattenItem_isOk] at h2
        simp only [exceptOk] at h2
        rcases rv with ⟨⟨b2, s2, sl2⟩, vp⟩
        rw [flattenFields_isOk]
        simp [h, h2]
termination_by structural fields
end

/-- The parse of `[1 to 5, 7]` (an extension array constructor around a
sequence of a range and an index). -/
def exC4array : PItem :=
  .mk (.punary .opArray (some (.mk (.psequence
    [.mk (.pbin .opAdd none none) none]) none))) none

/-- C4: the encoder fails exactly when the input contains a node requiring
extensions while the flag is off, a current-subject reference at nesting
level 0, or a last-index reference outside an array subscript
(`jspCanEncode` is the pure conjunction of the three conditions over the
tree, with the filter/subscript context updates the encoder performs); the
possible error values are exactly the three input/structural errors; and,
concretely, an array constructor without extensions fails with the
extensions-disabled error while `@`, at top level, fails with the
current-in-root-expression error. -/
theorem encode_fails_iff_syntax_conditions (pr : JsonPathParseResult) :
    exceptOk (jsonPathEncode pr) = jspCanEncode pr.ext 0 false pr.expr
    ∧ (∀ e : JsonPathEncError,
        e = .extensionsDisabled ∨ e = .currentInRootExpression
          ∨ e = .lastOutsideArraySubscript)
    ∧ (match jsonPathEncode ⟨exC4array, true, false⟩ with
       | .error e => some e
       | .ok _ => none) = some .extensionsDisabled
    ∧ (match jsonPathEncode ⟨.mk .pcurrent none, true, false⟩ with
       | .error e => some e
       | .ok _ => none) = some .currentInRootExpression
    ∧ (match jsonPathEncode ⟨.mk .plast none, true, false⟩ with
       | .error e => some e
       | .ok _ => none) = some .lastOutsideArraySubscript := by
  refine ⟨?_, fun e => by cases e <;> simp, by decide, by decide, by decide⟩
  rw [jsonPathEncode, exceptOk_map, flattenItem_isOk]

/-! ## Claim C3 (amended): offset-slot positions are 4-byte aligned -/

theorem Except_bind_ok {ε α β : Type} {x : Except ε α} {f : α → Except ε β}
    {b : β} (h : x.bind f = .ok b) : ∃ a, x = .ok a ∧ f a = .ok b := by
  cases x with
  | error e => exact absurd h (by simp [Except.bind])
  | ok a => exact ⟨a, rfl, h⟩

theorem Except_map_ok {ε α β : Type} {x : Except ε α} {f : α → β}
    {b : β} (h : x.map f = .ok b) : ∃ a, x = .ok a ∧ f a = b := by
  cases x with
  | error e => exact absurd h (by simp [Except.map])
  | ok a =>
    refine ⟨a, rfl, ?_⟩
    simpa [Except.map] using h

theorem INTALIGN_mod (n : Nat) : INTALIGN n % 4 = 0 := by
  simp [INTALIGN, Nat.mul_mod_right]

theorem le_INTALIGN (n : Nat) : n ≤ INTALIGN n := by
  simp only [INTALIGN]
  omega

theorem alignStringInfoInt_length (b : List Nat) :
    (alignStringInfoInt b).length = INTALIGN b.length := by
  have := le_INTALIGN b.length
  simp [alignStringInfoInt]
  omega

theorem patchInt32_length (b : List Nat) (off v : Nat) :
    (patchInt32 b off v).length = b.length := by
  simp [patchInt32]

/-- The alignment invariant carried through the encoder: the buffer covers at
least the 8-byte header, and every recorded offset-slot position is a
multiple of 4. -/
def SlotsInv (st : EncState) : Prop :=
  8 ≤ st.buf.length ∧ ∀ q ∈ st.slots, q % 4 = 0


theorem punary_none_slots_aux {ext : Bool} {op : JspUnaryOp} {nl : Nat} {ias : Bool}
    {buf starts slots : List Nat} {pos : Nat} {st2 : EncState}
    (h : flattenItemPayload ext (.punary op none) nl ias
        ⟨buf, starts, slots⟩ pos = .ok st2)
    (hinv : SlotsInv ⟨buf, starts, slots⟩) (h4 : buf.length % 4 = 0) :
    SlotsInv st2 ∧ buf.length ≤ st2.buf.length := by
  obtain ⟨h8, hsl⟩ := hinv
  have h8 : 8 ≤ buf.length := h8
  have hlen : (buf ++ le32 0).length = buf.length + 4 := by simp [le32]
  simp only [flattenItemPayload] at h
  by_cases hoe : op = .opArray ∧ ext = false
  · rw [if_pos hoe] at h
    exact absurd h (by simp)
  · rw [if_neg hoe] at h
    injection h with h
    subst h
    refine ⟨⟨?_, ?_⟩, ?_⟩
    · show 8 ≤ (buf ++ le32 0).length
      omega
    · intro q hq
      simp only [List.mem_append, List.mem_singleton] at hq
      rcases hq with hq | hq
      · exact hsl q hq
      · subst hq
        simp only [JSONPATH_HDRSZ]
        omega
    · show buf.length ≤ (buf ++ le32 0).length
      omega

theorem punary_some_slots_aux {ext : Bool} {op : JspUnaryOp} {a : PItem} {nl : Nat}
    {ias : Bool} {buf starts slots : List Nat} {pos : Nat} {st2 : EncState}
    (hrec : ∀ (nl2 : Nat) (s : EncState) (r : EncState × Nat),
        flattenJsonPathParseItem ext a nl2 ias s = .ok r → SlotsInv s →
        SlotsInv r.1 ∧ s.buf.length ≤ r.1.buf.length)
    (h : flattenItemPayload ext (.punary op (some a)) nl ias
        ⟨buf, starts, slots⟩ pos = .ok st2)
    (hinv : SlotsInv ⟨buf, starts, slots⟩) (h4 : buf.length % 4 = 0) :
    SlotsInv st2 ∧ buf.length ≤ st2.buf.length := by
  obtain ⟨h8, hsl⟩ := hinv
  have h8 : 8 ≤ buf.length := h8
  have hlen : (buf ++ le32 0).length = buf.length + 4 := by simp [le32]
  have hinv1 : SlotsInv ⟨buf ++ le32 0, starts,
      slots ++ [buf.length - JSONPATH_HDRSZ]⟩ := by
    refine ⟨?_, ?_⟩
    · show 8 ≤ (buf ++ le32 0).length
      omega
    · intro q hq
      simp only [List.mem_append, List.mem_singleton] at hq
      rcases hq with hq | hq
      · exact hsl q hq
      · subst hq
        simp only [JSONPATH_HDRSZ]
        omega
  simp only [flattenItemPayload] at h
  by_cases hoe : op = .opArray ∧ ext = false
  · rw [if_pos hoe] at h
    exact absurd h (by simp)
  · rw [if_neg hoe] at h
    obtain ⟨r1, hx, h⟩ := Except_bind_ok h
    have ha := hrec _ _ _ hx hinv1
    obtain ⟨⟨h8b, hslb⟩, hmono1⟩ := ha
    injection h with h
    subst h
    refine ⟨⟨by simpa [patchInt32_length] using h8b, fun q hq => hslb q hq⟩, ?_⟩
    have hmono1 : (buf ++ le32 0).length ≤ r1.1.buf.length := hmono1
    show buf.length ≤ (patchInt32 r1.1.buf buf.length (r1.2 - pos)).length
    rw [patchInt32_length]
    omega

theorem psequence_slots_aux {ext : Bool} {elems : List PItem} {nl : Nat} {ias : Bool}
    {buf starts slots : List Nat} {pos : Nat} {st2 : EncState}
    (hrec : ∀ (pos2 offset2 : Nat) (s : EncState) (r : EncState),
        flattenSequenceElems ext elems nl ias pos2 offset2 s = .ok r → SlotsInv s →
        SlotsInv r ∧ s.buf.length ≤ r.buf.length)
    (h : flattenItemPayload ext (.psequence elems) nl ias
        ⟨buf, starts, slots⟩ pos = .ok st2)
    (hinv : SlotsInv ⟨buf, starts, slots⟩) (h4 : buf.length % 4 = 0) :
    SlotsInv st2 ∧ buf.length ≤ st2.buf.length := by
  obtain ⟨h8, hsl⟩ := hinv
  have h8 : 8 ≤ buf.length := h8
  have hlen : (buf ++ le32 elems.length).length = buf.length + 4 := by simp [le32]
  have hlen2 : (buf ++ le32 elems.length
      ++ List.replicate (4 * elems.length) 32).length
      = buf.length + 4 + 4 * elems.length := by
    simp [le32]
    omega
  simp only [flattenItemPayload] at h
  by_cases hef : ext = false
  · rw [if_pos hef] at h
    exact absurd h (by simp)
  · rw [if_neg hef] at h
    have hinv1 : SlotsInv ⟨buf ++ le32 elems.length
        ++ List.replicate (4 * elems.length) 32, starts,
        slots ++ (List.range elems.length).map
          (fun i => (buf ++ le32 elems.length).length + 4 * i - JSONPATH_HDRSZ)⟩ := by
      refine ⟨?_, ?_⟩
      · show 8 ≤ (buf ++ le32 elems.length
            ++ List.replicate (4 * elems.length) 32).length
        omega
      · intro q hq
        simp only [List.mem_append, List.mem_map, List.mem_range] at hq
        rcases hq with hq | ⟨i, hi, hq⟩
        · exact hsl q hq
        · subst hq
          simp only [JSONPATH_HDRSZ]
          omega
    have hs := hrec _ _ _ _ h hinv1
    obtain ⟨hinvr, hmono⟩ := hs
    refine ⟨hinvr, ?_⟩
    have hmono : (buf ++ le32 elems.length
        ++ List.replicate (4 * elems.length) 32).length ≤ st2.buf.length := hmono
    omega

theorem pobject_slots_aux {ext : Bool} {fields : List PField} {nl : Nat} {ias : Bool}
    {buf starts slots : List Nat} {pos : Nat} {st2 : EncState}
    (hrec : ∀ (pos2 offset2 : Nat) (s : EncState) (r : EncState),
        flattenObjectFields ext fields nl ias pos2 offset2 s = .ok r → SlotsInv s →
        SlotsInv r ∧ s.buf.length ≤ r.buf.length)
    (h : flattenItemPayload ext (.pobject fields) nl ias
        ⟨buf, starts, slots⟩ pos = .ok st2)
    (hinv : SlotsInv ⟨buf, starts, slots⟩) (h4 : buf.length % 4 = 0) :
    SlotsInv st2 ∧ buf.length ≤ st2.buf.length := by
  obtain ⟨h8, hsl⟩ := hinv
  have h8 : 8 ≤ buf.length := h8
  have hlen : (buf ++ le32 fields.length).length = buf.length + 4 := by simp [le32]
  have hlen2 : (buf ++ le32 fields.length
      ++ List.replicate (4 * (2 * fields.length)) 32).length
      = buf.length + 4 + 4 * (2 * fields.length) := by
    simp [le32]
    omega
  simp only [flattenItemPayload] at h
  by_cases hef : ext = false
  · rw [if_pos hef] at h
    exact absurd h (by simp)
  · rw [if_neg hef] at h
    have hinv1 : SlotsInv ⟨buf ++ le32 fields.length
        ++ List.replicate (4 * (2 * fields.length)) 32, starts,
        slots ++ (List.range (2 * fields.length)).map
          (fun i => (buf ++ le32 fields.length).length + 4 * i - JSONPATH_HDRSZ)⟩ := by
      refine ⟨?_, ?_⟩
      · show 8 ≤ (buf ++ le32 fields.length
            ++ List.replicate (4 * (2 * fields.length)) 32).length
        omega
      · intro q hq
        simp only [List.mem_append, List.mem_map, List.mem_range] at hq
        rcases hq with hq | ⟨i, hi, hq⟩
        · exact hsl q hq
        · subst hq
          simp only [JSONPATH_HDRSZ]
          omega
    have hs := hrec _ _ _ _ h hinv1
    obtain ⟨hinvr, hmono⟩ := hs
    refine ⟨hinvr, ?_⟩
    have hmono : (buf ++ le32 fields.length
        ++ List.replicate (4 * (2 * fields.length)) 32).length ≤ st2.buf.length := hmono
    omega

mutual
theorem flattenItem_slots {ext : Bool} {item : PItem} {nl : Nat} {ias : Bool}
    {st : EncState} {r : EncState × Nat}
    (h : flattenJsonPathParseItem ext item nl ias st = .ok r)
    (hinv : SlotsInv st) :
    SlotsInv r.1 ∧ st.buf.length ≤ r.1.buf.length := by
  match item, st with
  | .mk v nxt, ⟨buf, starts, slots⟩ =>
    obtain ⟨h8, hsl⟩ := hinv
    simp only [flattenJsonPathParseItem] at h
    obtain ⟨st2, hp, h⟩ := Except_bind_ok h
    have halen : (alignStringInfoInt (buf ++ [toTag v.itemType])).length
        = INTALIGN (buf.length + 1) := by
      simp [alignStringInfoInt_length]
    have hmod := INTALIGN_mod (buf.length + 1)
    have hge := le_INTALIGN (buf.length + 1)
    have h8 : 8 ≤ buf.length := h8
    have hpay := flattenPayload_slots hp
      ⟨by simp [halen]; omega,
       by intro q hq
          simp only [List.mem_append, List.mem_singleton] at hq
          rcases hq with hq | hq
          · exact hsl q hq
          · subst hq
            simp [halen, JSONPATH_HDRSZ]
            omega⟩
      (by simp [halen, le32, JSONPATH_HDRSZ]; omega)
    obtain ⟨⟨h8b, hslb⟩, hmono⟩ := hpay
    match nxt with
    | none =>
      simp only [] at h
      injection h with h
      subst h
      refine ⟨⟨h8b, hslb⟩, ?_⟩
      have hmono : (alignStringInfoInt (buf ++ [toTag v.itemType]) ++ le32 0).length
          ≤ st2.buf.length := hmono
      show buf.length ≤ st2.buf.length
      simp [halen, le32] at hmono
      omega
    | some nx =>
      simp only [] at h
      obtain ⟨r3, hn, h⟩ := Except_bind_ok h
      have hnx := flattenItem_slots hn ⟨h8b, hslb⟩
      obtain ⟨⟨h8c, hslc⟩, hmono2⟩ := hnx
      match r3 with
      | (⟨b3, s3, sl3⟩, chld) =>
        simp only [] at h
        injection h with h
        subst h
        refine ⟨⟨?_, ?_⟩, ?_⟩
        · simpa [patchInt32_length] using h8c
        · intro q hq
          exact hslc q hq
        · have hmono : (alignStringInfoInt (buf ++ [toTag v.itemType]) ++ le32 0).length
              ≤ st2.buf.length := hmono
          have hmono2 : st2.buf.length ≤ b3.length := hmono2
          show buf.length ≤ (patchInt32 b3 _ _).length
          rw [patchInt32_length]
          simp [halen, le32] at hmono
          omega
termination_by structural item

theorem flattenPayload_slots {ext : Bool} {v : PVal} {nl : Nat} {ias : Bool}
    {st : EncState} {pos : Nat} {st2 : EncState}
    (h : flattenItemPayload ext v nl ias st pos = .ok st2)
    (hinv : SlotsInv st) (h4 : st.buf.length % 4 = 0) :
    SlotsInv st2 ∧ st.buf.length ≤ st2.buf.length := by
  match v, st with
  | .pnull, st =>
    injection h with h
    subst h
    exact ⟨hinv, Nat.le_refl _⟩
  | .proot, st =>
    injection h with h
    subst h
    exact ⟨hinv, Nat.le_refl _⟩
  | .panyArray, st =>
    injection h with h
    subst h
    exact ⟨hinv, Nat.le_refl _⟩
  | .panyKey, st =>
    injection h with h
    subst h
    exact ⟨hinv, Nat.le_refl _⟩
  | .pmethod m, st =>
    injection h with h
    subst h
    exact ⟨hinv, Nat.le_refl _⟩
  | .pcurrent, st =>
    simp only [flattenItemPayload] at h
    by_cases hnl : nl = 0
    · rw [if_pos hnl] at h
      exact absurd h (by simp)
    · rw [if_neg hnl] at h
      injection h with h
      subst h
      exact ⟨hinv, Nat.le_refl _⟩
  | .plast, st =>
    simp only [flattenItemPayload] at h
    by_cases hia : ias
    · rw [if_pos hia] at h
      injection h with h
      subst h
      exact ⟨hinv, Nat.le_refl _⟩
    · rw [if_neg hia] at h
      exact absurd h (by simp)
  | .pstring s, ⟨buf, starts, slots⟩ =>
    injection h with h
    subst h
    obtain ⟨h8, hsl⟩ := hinv
    refine ⟨⟨?_, fun q hq => hsl q hq⟩, ?_⟩ <;> simp at h8 ⊢ <;> omega
  | .pvariable s, ⟨buf, starts, slots⟩ =>
    injection h with h
    subst h
    obtain ⟨h8, hsl⟩ := hinv
    refine ⟨⟨?_, fun q hq => hsl q hq⟩, ?_⟩ <;> simp at h8 ⊢ <;> omega
  | .pkey s, ⟨buf, starts, slots⟩ =>
    injection h with h
    subst h
    obtain ⟨h8, hsl⟩ := hinv
    refine ⟨⟨?_, fun q hq => hsl q hq⟩, ?_⟩ <;> simp at h8 ⊢ <;> omega
  | .pnumeric t, ⟨buf, starts, slots⟩ =>
    injection h with h
    subst h
    obtain ⟨h8, hsl⟩ := hinv
    refine ⟨⟨?_, fun q hq => hsl q hq⟩, ?_⟩ <;> simp at h8 ⊢ <;> omega
  | .pbool b, ⟨buf, starts, slots⟩ =>
    injection h with h
    subst h
    obtain ⟨h8, hsl⟩ := hinv
    refine ⟨⟨?_, fun q hq => hsl q hq⟩, ?_⟩ <;> simp at h8 ⊢ <;> omega
  | .pany first last, ⟨buf, starts, slots⟩ =>
    injection h with h
    subst h
    obtain ⟨h8, hsl⟩ := hinv
    refine ⟨⟨?_, fun q hq => hsl q hq⟩, ?_⟩ <;> simp at h8 ⊢ <;> omega
  | .pbin op l r, ⟨buf, starts, slots⟩ =>
    obtain ⟨h8, hsl⟩ := hinv
    simp only [flattenItemPayload] at h
    obtain ⟨r1, hx, h⟩ := Except_bind_ok h
    have h8 : 8 ≤ buf.length := h8
    have h4 : buf.length % 4 = 0 := h4
    have hinv1 : SlotsInv ⟨buf ++ le32 0 ++ le32 0, starts,
        slots ++ [buf.length - JSONPATH_HDRSZ, buf.length + 4 - JSONPATH_HDRSZ]⟩ := by
      refine ⟨by simp [le32], ?_⟩
      intro q hq
      simp only [List.mem_append, List.mem_cons, List.mem_singleton,
        List.not_mem_nil, or_false] at hq
      rcases hq with hq | hq | hq
      · exact hsl q hq
      · subst hq
        simp [JSONPATH_HDRSZ]
        omega
      · subst hq
        simp [JSONPATH_HDRSZ]
        omega
    have hl := flattenOpt_slots hx hinv1
    obtain ⟨⟨h8b, hslb⟩, hmono1⟩ := hl
    match r1 with
    | (⟨b1, s1, sl1⟩, chld) =>
      simp only [] at h
      obtain ⟨r2, hy, h⟩ := Except_bind_ok h
      have hinv2 : SlotsInv ⟨patchInt32 b1 buf.length (chld - pos), s1, sl1⟩ := by
        refine ⟨by simpa [patchInt32_length] using h8b, fun q hq => hslb q hq⟩
      have hr := flattenOpt_slots hy hinv2
      obtain ⟨⟨h8c, hslc⟩, hmono2⟩ := hr
      match r2 with
      | (⟨b2, s2, sl2⟩, chld2) =>
        simp only [] at h
        injection h with h
        subst h
        refine ⟨⟨by simpa [patchInt32_length] using h8c, fun q hq => hslc q hq⟩, ?_⟩
        simp only [EncState.buf, patchInt32_length] at hmono1 hmono2 ⊢
        simp only [List.length_append] at hmono1 ⊢
        simp [le32] at hmono1
        omega
  | .plikeRegex flags pat e, ⟨buf, starts, slots⟩ =>
    obtain ⟨h8, hsl⟩ := hinv
    simp only [flattenItemPayload] at h
    obtain ⟨r1, hx, h⟩ := Except_bind_ok h
    have h8 : 8 ≤ buf.length := h8
    have h4 : buf.length % 4 = 0 := h4
    have hinv1 : SlotsInv ⟨buf ++ le32 flags ++ le32 0 ++ le32 (strBytes pat).length
        ++ strBytes pat ++ [0], starts,
        slots ++ [(buf ++ le32 flags).length - JSONPATH_HDRSZ]⟩ := by
      refine ⟨by simp [le32]; omega, ?_⟩
      intro q hq
      simp only [List.mem_append, List.mem_singleton] at hq
      rcases hq with hq | hq
      · exact hsl q hq
      · subst hq
        simp [JSONPATH_HDRSZ, le32]
        omega
    have he := flattenItem_slots hx hinv1
    obtain ⟨⟨h8b, hslb⟩, hmono1⟩ := he
    match r1 with
    | (⟨b1, s1, sl1⟩, chld) =>
      simp only [] at h
      injection h with h
      subst h
      refine ⟨⟨by simpa [patchInt32_length] using h8b, fun q hq => hslb q hq⟩, ?_⟩
      simp only [EncState.buf, patchInt32_length] at hmono1 ⊢
      simp only [List.length_append] at hmono1 ⊢
      simp [le32] at hmono1
      omega
  | .punary op none, ⟨buf, starts, slots⟩ =>
    exact punary_none_slots_aux h hinv h4
  | .punary op (some a), ⟨buf, starts, slots⟩ =>
    exact punary_some_slots_aux
      (fun nl2 s r hx hv => flattenItem_slots hx hv) h hinv h4
  | .pindexArray elems, ⟨buf, starts, slots⟩ =>
    obtain ⟨h8, hsl⟩ := hinv
    simp only [flattenItemPayload] at h
    have h8 : 8 ≤ buf.length := h8
    have h4 : buf.length % 4 = 0 := h4
    have hinv1 : SlotsInv ⟨buf ++ le32 elems.length
        ++ List.replicate (4 * (2 * elems.length)) 32, starts,
        slots ++ (List.range (2 * elems.length)).map
          (fun i => (buf ++ le32 elems.length).length + 4 * i - JSONPATH_HDRSZ)⟩ := by
      refine ⟨by simp [le32]; omega, ?_⟩
      intro q hq
      simp only [List.mem_append, List.mem_map, List.mem_range] at hq
      rcases hq with hq | ⟨i, hi, hq⟩
      · exact hsl q hq
      · subst hq
        simp [JSONPATH_HDRSZ, le32]
        omega
    have hs := flattenSubs_slots h hinv1
    obtain ⟨⟨h8b, hslb⟩, hmono1⟩ := hs
    refine ⟨⟨h8b, hslb⟩, ?_⟩
    simp only [EncState.buf] at hmono1 ⊢
    simp only [List.length_append] at hmono1 ⊢
    simp [le32] at hmono1
    omega
  | .psequence elems, ⟨buf, starts, slots⟩ =>
    exact psequence_slots_aux
      (fun pos2 offset2 s r hx hv => flattenSeq_slots hx hv) h hinv h4
  | .pobject fields, ⟨buf, starts, slots⟩ =>
    exact pobject_slots_aux
      (fun pos2 offset2 s r hx hv => flattenFields_slots hx hv) h hinv h4
termination_by structural v

theorem flattenOpt_slots {ext : Bool} {o : Option PItem} {nl : Nat} {ias : Bool}
    {st : EncState} {pos : Nat} {r : EncState × Nat}
    (h : flattenOptChild ext o nl ias st pos = .ok r)
    (hinv : SlotsInv st) :
    SlotsInv r.1 ∧ st.buf.length ≤ r.1.buf.length := by
  match o with
  | none =>
    injection h with h
    subst h
    exact ⟨hinv, Nat.le_refl _⟩
  | some it => exact flattenItem_slots h hinv
termination_by structural o

theorem flattenTo_slots {ext : Bool} {t : Option PItem} {nl : Nat}
    {pos : Nat} {st : EncState} {r : EncState × Nat}
    (h : flattenIndexArrayTo ext t nl pos st = .ok r)
    (hinv : SlotsInv st) :
    SlotsInv r.1 ∧ st.buf.length ≤ r.1.buf.length := by
  match t with
  | none =>
    injection h with h
    subst h
    exact ⟨hinv, Nat.le_refl _⟩
  | some ti =>
    simp only [flattenIndexArrayTo] at h
    obtain ⟨r1, hx, h⟩ := Except_bind_ok h
    have hi := flattenItem_slots hx hinv
    match r1 with
    | (st1, tp) =>
      simp only [] at h
      injection h with h
      subst h
      exact hi
termination_by structural t

theorem flattenSubs_slots {ext : Bool} {elems : List PSubscript} {nl : Nat}
    {pos offset : Nat} {st : EncState} {st2 : EncState}
    (h : flattenIndexArrayElems ext elems nl pos offset st = .ok st2)
    (hinv : SlotsInv st) :
    SlotsInv st2 ∧ st.buf.length ≤ st2.buf.length := by
  match elems with
  | [] =>
    injection h with h
    subst h
    exact ⟨hinv, Nat.le_refl _⟩
  | .mk f t :: rest =>
    simp only [flattenIndexArrayElems] at h
    obtain ⟨rf, hx, h⟩ := Except_bind_ok h
    have hf := flattenItem_slots hx hinv
    obtain ⟨⟨h8b, hslb⟩, hmono1⟩ := hf
    match rf with
    | (st1, fp) =>
      simp only [] at h
      obtain ⟨rt, hy, h⟩ := Except_bind_ok h
      have ht := flattenTo_slots hy ⟨h8b, hslb⟩
      obtain ⟨⟨h8c, hslc⟩, hmono2⟩ := ht
      match rt with
      | (⟨b2, s2, sl2⟩, topos) =>
        simp only [] at h
        have hrest := flattenSubs_slots h
          ⟨by simpa [patchInt32_length] using h8c, fun q hq => hslc q hq⟩
        obtain ⟨hinv3, hmono3⟩ := hrest
        refine ⟨hinv3, ?_⟩
        simp only [EncState.buf, patchInt32_length] at hmono1 hmono2 hmono3 ⊢
        omega
termination_by structural elems

theorem flattenSeq_slots {ext : Bool} {elems : List PItem} {nl : Nat} {ias : Bool}
    {pos offset : Nat} {st : EncState} {st2 : EncState}
    (h : flattenSequenceElems ext elems nl ias pos offset st = .ok st2)
    (hinv : SlotsInv st) :
    SlotsInv st2 ∧ st.buf.length ≤ st2.buf.length := by
  match elems with
  | [] =>
    injection h with h
    subst h
    exact ⟨hinv, Nat.le_refl _⟩
  | e :: rest =>
    simp only [flattenSequenceElems] at h
    obtain ⟨r1, hx, h⟩ := Except_bind_ok h
    have he := flattenItem_slots hx hinv
    obtain ⟨⟨h8b, hslb⟩, hmono1⟩ := he
    match r1 with
    | (⟨b1, s1, sl1⟩, ep) =>
      simp only [] at h
      have hrest := flattenSeq_slots h
        ⟨by simpa [patchInt32_length] using h8b, fun q hq => hslb q hq⟩
      obtain ⟨hinv3, hmono3⟩ := hrest
      refine ⟨hinv3, ?_⟩
      simp only [EncState.buf, patchInt32_length] at hmono1 hmono3 ⊢
      omega
termination_by structural elems

theorem flattenFields_slots {ext : Bool} {fields : List PField} {nl : Nat} {ias : Bool}
    {pos offset : Nat} {st : EncState} {st2 : EncState}
    (h : flattenObjectFields ext fields nl ias pos offset st = .ok st2)
    (hinv : SlotsInv st) :
    SlotsInv st2 ∧ st.buf.length ≤ st2.buf.length := by
  match fields with
  | [] =>
    injection h with h
    subst h
    exact ⟨hinv, Nat.le_refl _⟩
  | .mk k fv :: rest =>
    simp only [flattenObjectFields] at h
    obtain ⟨rk, hx, h⟩ := Except_bind_ok h
    have hk := flattenItem_slots hx hinv
    obtain ⟨⟨h8b, hslb⟩, hmono1⟩ := hk
    match rk with
    | (st1, kp) =>
      simp only [] at h
      obtain ⟨rv, hy, h⟩ := Except_bind_ok h
      have hv := flattenItem_slots hy ⟨h8b, hslb⟩
      obtain ⟨⟨h8c, hslc⟩, hmono2⟩ := hv
      match rv with
      | (⟨b2, s2, sl2⟩, vp) =>
        simp only [] at h
        have hrest := flattenFields_slots h
          ⟨by simpa [patchInt32_length] using h8c, fun q hq => hslc q hq⟩
        obtain ⟨hinv3, hmono3⟩ := hrest
        refine ⟨hinv3, ?_⟩
        simp only [EncState.buf, patchInt32_length] at hmono1 hmono2 hmono3 ⊢
        omega
termination_by structural fields
end

/-- C3 (amended): in any successful encoding, every reserved 4-byte
offset-slot position (the `next` slot reserved after the post-tag alignment
and every child-offset slot, as recorded in the ghost `slots` list) is a
multiple of 4 — while node-start positions themselves need not be, see
`node_start_alignment_cex`. -/
theorem offset_slot_positions_aligned (pr : JsonPathParseResult) (jp : JsonPath)
    (h : jsonPathEncode pr = .ok jp) : ∀ q ∈ jp.slots, q % 4 = 0 := by
  rw [jsonPathEncode] at h
  obtain ⟨r, hr, hmap⟩ := Except_map_ok h
  have hres := flattenItem_slots hr ⟨by simp, by simp⟩
  obtain ⟨⟨h8, hsl⟩, hmono⟩ := hres
  match r, hmap with
  | (⟨b1, s1, sl1⟩, p), hmap =>
    simp only [] at hmap
    subst hmap
    intro q hq
    exact hsl q hq

theorem offset_slot_positions_aligned_witness :
    (12 ∈ jpC3.slots) ∧ 12 % 4 = 0 :=
  ⟨by decide, offset_slot_positions_aligned exC3parse jpC3 rfl 12 (by decide)⟩
